import Mathlib

set_option autoImplicit false

/-!
Verification development for the document-analysis pipeline of the
tech_documents repository (scripts/fixed_ollama_processor.py,
scripts/bulletproof_ollama_processor.py, scripts/ultimate_ollama_processor.py,
scripts/ollama_processor.py, scripts/incremental_ollama_processor.py).

The Python code is shallowly embedded: Python strings are Lean Strings
(operated on through their character lists so that everything reduces in the
kernel), Python dicts with unknown value types are association lists over a
PyVal type mirroring JSON values, floats arising from confidence arithmetic
(exact sums of quarters and their means) are modelled as rationals, and
Python exceptions are modelled with Except.  External collaborators (the
generative text service, PDF text extraction, file stat calls, MD5) are
oracle parameters.
-/

/-! ## Python string primitives, on character lists -/

/-- Whitespace recognised by Python str.split and str.strip (ASCII range,
which covers all inputs handled by the pipeline). -/
def isPyWs (c : Char) : Bool :=
  c = ' ' || c = '\t' || c = '\n' || c = '\r' || c = '\x0b' || c = '\x0c'

/-- Helper for splitWs: words accumulated left to right; acc holds the
current word reversed. -/
def splitWsAux : List Char → List Char → List (List Char)
  | [], acc => if acc.isEmpty then [] else [acc.reverse]
  | c :: cs, acc =>
      if isPyWs c then
        if acc.isEmpty then splitWsAux cs [] else acc.reverse :: splitWsAux cs []
      else splitWsAux cs (c :: acc)

/-- Python text.split() with no argument: split on whitespace runs and drop
empty pieces. -/
def pySplitWords (s : String) : List String :=
  (splitWsAux s.data []).map String.mk

/-- Python str.strip(): drop leading and trailing whitespace. -/
def pyStrip (s : String) : String :=
  String.mk (((s.data.dropWhile isPyWs).reverse.dropWhile isPyWs).reverse)

/-- Python str.lower() (ASCII case folding, which covers the filenames and
category names the pipeline manipulates). -/
def pyLower (s : String) : String :=
  String.mk (s.data.map Char.toLower)

/-- Case-insensitive character comparison, used by the IGNORECASE regexes. -/
def charCiEq (a b : Char) : Bool :=
  a.toLower = b.toLower

/-- One replacement step for pyReplace with a non-empty pattern o :: os: if
the pattern is a prefix of the character stream, consume it and emit the
replacement, as Python str.replace does left to right on non-overlapping
occurrences. -/
def replaceAux (o : Char) (os new : List Char) : Nat → List Char → List Char
  | _, [] => []
  | 0, l => l
  | fuel + 1, c :: cs =>
      if (o :: os).isPrefixOf (c :: cs) then
        new ++ replaceAux o os new fuel (cs.drop os.length)
      else
        c :: replaceAux o os new fuel cs

/-- Python str.replace(old, new); the sources only replace the non-empty
patterns ".pdf", "_" and "-".  Structural recursion on a fuel equal to the
text length, which every step decreases by at least one character. -/
def pyReplace (s : String) (old new : String) : String :=
  match old.data with
  | [] => s
  | o :: os => String.mk (replaceAux o os new.data s.data.length s.data)

/-- Substring test on character lists, used for the Python `in` operator on
strings. -/
def listContainsSub (hay sub : List Char) : Bool :=
  match hay with
  | [] => sub.isEmpty
  | _ :: rest => sub.isPrefixOf hay || listContainsSub rest sub

/-- Python `sub in s` for strings. -/
def pyContains (s sub : String) : Bool :=
  listContainsSub s.data sub.data

/-- Python " ".join(parts) and friends. -/
def pyJoin (sep : String) : List String → String
  | [] => ""
  | [x] => x
  | x :: xs => x ++ sep ++ pyJoin sep xs

/-- Python s[:n] on strings. -/
def pyTake (s : String) (n : Nat) : String :=
  String.mk (s.data.take n)

/-- Python len(s) on strings (number of code points, as in Python). -/
def pyLen (s : String) : Nat :=
  s.data.length

/-- Lexicographic comparison of character lists by code point, the ordering
Python uses to compare strings when sorting by filename. -/
def lexLe : List Char → List Char → Bool
  | [], _ => true
  | _ :: _, [] => false
  | a :: as, b :: bs =>
      if a.toNat < b.toNat then true
      else if b.toNat < a.toNat then false
      else lexLe as bs

/-- Python string less-or-equal. -/
def strLe (a b : String) : Bool :=
  lexLe a.data b.data

theorem lexLe_total : ∀ a b, lexLe a b || lexLe b a
  | [], _ => by simp [lexLe]
  | _ :: _, [] => by simp [lexLe]
  | a :: as, b :: bs => by
      by_cases hab : a.toNat < b.toNat
      · simp [lexLe, hab]
      · by_cases hba : b.toNat < a.toNat
        · simp [lexLe, hab, hba]
        · have := lexLe_total as bs
          simp [lexLe, hab, hba] at this ⊢
          exact this

theorem lexLe_trans : ∀ a b c, lexLe a b → lexLe b c → lexLe a c
  | [], _, _ => by intro _ _; simp [lexLe]
  | a :: as, [], c => by intro h; simp [lexLe] at h
  | a :: as, b :: bs, [] => by intro _ h; simp [lexLe] at h
  | a :: as, b :: bs, c :: cs => by
      intro h1 h2
      simp only [lexLe] at h1 h2 ⊢
      split at h1
      · rename_i hab
        split at h2
        · rename_i hbc
          have : a.toNat < c.toNat := Nat.lt_trans hab hbc
          simp [this]
        · split at h2
          · exact absurd h2 (by simp)
          · rename_i hbc hcb
            have hbc2 : b.toNat = c.toNat := by omega
            have : a.toNat < c.toNat := by omega
            simp [this]
      · split at h1
        · exact absurd h1 (by simp)
        · rename_i hab hba
          have hab2 : a.toNat = b.toNat := by omega
          split at h2
          · rename_i hbc
            have : a.toNat < c.toNat := by omega
            simp [this]
          · split at h2
            · exact absurd h2 (by simp)
            · rename_i hbc hcb
              have hac : ¬ a.toNat < c.toNat := by omega
              have hca : ¬ c.toNat < a.toNat := by omega
              simp only [hac, hca, if_false]
              exact lexLe_trans as bs cs h1 h2

/-! ## PyVal: Python/JSON values as handled by json.loads and the dicts
the processors pass around -/

inductive PyVal where
  | str : String → PyVal
  | num : Rat → PyVal
  | pybool : Bool → PyVal
  | null : PyVal
  | list : List PyVal → PyVal
  | dict : List (String × PyVal) → PyVal

mutual
def pyBeq : PyVal → PyVal → Bool
  | .str a, .str b => a == b
  | .num a, .num b => a == b
  | .pybool a, .pybool b => a == b
  | .null, .null => true
  | .list a, .list b => pyBeqList a b
  | .dict a, .dict b => pyBeqDict a b
  | _, _ => false
def pyBeqList : List PyVal → List PyVal → Bool
  | [], [] => true
  | a :: as, b :: bs => pyBeq a b && pyBeqList as bs
  | _, _ => false
def pyBeqDict : List (String × PyVal) → List (String × PyVal) → Bool
  | [], [] => true
  | (ka, va) :: as, (kb, vb) :: bs => ka == kb && pyBeq va vb && pyBeqDict as bs
  | _, _ => false
end

mutual
theorem pyBeq_iff : (a b : PyVal) → (pyBeq a b = true ↔ a = b)
  | .str a, .str b => by simp [pyBeq]
  | .num a, .num b => by simp [pyBeq]
  | .pybool a, .pybool b => by simp [pyBeq]
  | .null, .null => by simp [pyBeq]
  | .list a, .list b => by simp [pyBeq, pyBeqList_iff a b]
  | .dict a, .dict b => by simp [pyBeq, pyBeqDict_iff a b]
  | .str a, .num b => by simp [pyBeq]
  | .str a, .pybool b => by simp [pyBeq]
  | .str a, .null => by simp [pyBeq]
  | .str a, .list b => by simp [pyBeq]
  | .str a, .dict b => by simp [pyBeq]
  | .num a, .str b => by simp [pyBeq]
  | .num a, .pybool b => by simp [pyBeq]
  | .num a, .null => by simp [pyBeq]
  | .num a, .list b => by simp [pyBeq]
  | .num a, .dict b => by simp [pyBeq]
  | .pybool a, .str b => by simp [pyBeq]
  | .pybool a, .num b => by simp [pyBeq]
  | .pybool a, .null => by simp [pyBeq]
  | .pybool a, .list b => by simp [pyBeq]
  | .pybool a, .dict b => by simp [pyBeq]
  | .null, .str b => by simp [pyBeq]
  | .null, .num b => by simp [pyBeq]
  | .null, .pybool b => by simp [pyBeq]
  | .null, .list b => by simp [pyBeq]
  | .null, .dict b => by simp [pyBeq]
  | .list a, .str b => by simp [pyBeq]
  | .list a, .num b => by simp [pyBeq]
  | .list a, .pybool b => by simp [pyBeq]
  | .list a, .null => by simp [pyBeq]
  | .list a, .dict b => by simp [pyBeq]
  | .dict a, .str b => by simp [pyBeq]
  | .dict a, .num b => by simp [pyBeq]
  | .dict a, .pybool b => by simp [pyBeq]
  | .dict a, .null => by simp [pyBeq]
  | .dict a, .list b => by simp [pyBeq]
theorem pyBeqList_iff : (as bs : List PyVal) → (pyBeqList as bs = true ↔ as = bs)
  | [], [] => by simp [pyBeqList]
  | [], _ :: _ => by simp [pyBeqList]
  | _ :: _, [] => by simp [pyBeqList]
  | a :: as, b :: bs => by
      simp [pyBeqList, pyBeq_iff a b, pyBeqList_iff as bs]
theorem pyBeqDict_iff : (as bs : List (String × PyVal)) → (pyBeqDict as bs = true ↔ as = bs)
  | [], [] => by simp [pyBeqDict]
  | [], _ :: _ => by simp [pyBeqDict]
  | _ :: _, [] => by simp [pyBeqDict]
  | (ka, va) :: as, (kb, vb) :: bs => by
      simp [pyBeqDict, pyBeq_iff va vb, pyBeqDict_iff as bs, and_assoc]
end

instance : DecidableEq PyVal := fun a b => decidable_of_iff _ (pyBeq_iff a b)

/-- A Python dict with string keys, in insertion order. -/
abbrev PyDict := List (String × PyVal)

/-- Python d.get(k): value of the first binding of k, if any. -/
def pyGet (d : PyDict) (k : String) : Option PyVal :=
  (d.find? (fun kv => kv.1 == k)).map (·.2)

/-- Python d.get(k, default). -/
def pyGetD (d : PyDict) (k : String) (v : PyVal) : PyVal :=
  (pyGet d k).getD v

/-- Python d[k] = v: update the first binding in place, else append,
preserving insertion order as CPython dicts do. -/
def pySet (d : PyDict) (k : String) (v : PyVal) : PyDict :=
  match d with
  | [] => [(k, v)]
  | (k0, v0) :: rest =>
      if k0 == k then (k0, v) :: rest else (k0, v0) :: pySet rest k v

/-- Python `k in d` for dicts. -/
def pyHasKey (d : PyDict) (k : String) : Bool :=
  (pyGet d k).isSome

/-- Python truthiness of a value: empty strings, zero, empty collections,
False and None are falsy. -/
def pyTruthy : PyVal → Bool
  | .str s => !s.data.isEmpty
  | .num q => q != 0
  | .pybool b => b
  | .null => false
  | .list l => !l.isEmpty
  | .dict d => !d.isEmpty

/-- Python truthiness of d.get(k): a missing key yields None, which is
falsy. -/
def pyTruthyOpt : Option PyVal → Bool
  | none => false
  | some v => pyTruthy v

/-- Python len() on a value, raising TypeError on numbers, booleans and
None. -/
def pyValLen : PyVal → Except String Nat
  | .str s => .ok s.data.length
  | .list l => .ok l.length
  | .dict d => .ok d.length
  | _ => .error "TypeError: object has no len"

/-- Python v.strip(): attribute access raising on non-strings. -/
def pyValStrip : PyVal → Except String String
  | .str s => .ok (pyStrip s)
  | _ => .error "AttributeError: no attribute strip"

/-- Python v.lower(): attribute access raising on non-strings. -/
def pyValLower : PyVal → Except String String
  | .str s => .ok (pyLower s)
  | _ => .error "AttributeError: no attribute lower"

/-! ## json.loads: an executable model of the strict JSON parser the
processors rely on (objects, arrays, strings with basic escapes, numbers,
true/false/null; trailing commas and bare words are rejected, exactly the
failures the fallback strategies are designed around) -/

/-- JSON structural whitespace. -/
def isJsonWs (c : Char) : Bool :=
  c = ' ' || c = '\t' || c = '\n' || c = '\r'

def jsonSkipWs (cs : List Char) : List Char :=
  cs.dropWhile isJsonWs

/-- Decimal digit value. -/
def digitVal (c : Char) : Nat := c.toNat - '0'.toNat

/-- Parse a maximal run of decimal digits. -/
def jsonDigits : List Char → Nat → Nat × Nat × List Char
  | c :: cs, acc =>
      if c.isDigit then
        let (n, k, rest) := jsonDigits cs (acc * 10 + digitVal c)
        (n, k + 1, rest)
      else (acc, 0, c :: cs)
  | [], acc => (acc, 0, [])

/-- Parse a JSON number after an optional minus sign has been consumed:
integer part without leading zeros, optional fraction, optional exponent.
The value is assembled as a single normalised rational so that the kernel
can evaluate it. -/
def jsonNumBody (cs : List Char) : Option (Rat × List Char) := do
  let (ipart, fallthrough) ←
    match cs with
    | '0' :: cs1 =>
        match cs1 with
        | c :: _ => if c.isDigit then none else some ((0 : Nat), cs1)
        | [] => some ((0 : Nat), ([] : List Char))
    | c :: _ =>
        if c.isDigit then
          let (n, _, rest) := jsonDigits cs 0
          some (n, rest)
        else none
    | [] => none
  let rest := fallthrough
  let (f, fk, rest2) ←
    match rest with
    | '.' :: cs2 =>
        match cs2 with
        | c :: _ =>
            if c.isDigit then
              let (f, k, rest3) := jsonDigits cs2 0
              some (f, k, rest3)
            else none
        | [] => none
    | _ => some ((0 : Nat), (0 : Nat), rest)
  let (eup, edown, rest4) ←
    match rest2 with
    | e :: cs3 =>
        if e = 'e' || e = 'E' then
          let (esign, cs4) :=
            match cs3 with
            | '+' :: cs5 => (true, cs5)
            | '-' :: cs5 => (false, cs5)
            | _ => (true, cs3)
          match cs4 with
          | c :: _ =>
              if c.isDigit then
                let (ex, _, rest5) := jsonDigits cs4 0
                if esign then some (ex, (0 : Nat), rest5)
                else some ((0 : Nat), ex, rest5)
              else none
          | [] => none
        else some ((0 : Nat), (0 : Nat), rest2)
    | [] => some ((0 : Nat), (0 : Nat), ([] : List Char))
  some (mkRat ((ipart * 10 ^ fk + f) * 10 ^ eup) (10 ^ fk * 10 ^ edown), rest4)

/-- Parse the body of a JSON string after the opening quote, handling the
standard escapes and rejecting raw control characters, as json.loads does. -/
def jsonStringBody : List Char → Option (List Char × List Char)
  | [] => none
  | '"' :: rest => some ([], rest)
  | '\\' :: e :: rest => do
      let c ←
        match e with
        | '"' => some '"'
        | '\\' => some '\\'
        | '/' => some '/'
        | 'n' => some '\n'
        | 't' => some '\t'
        | 'r' => some '\r'
        | 'b' => some '\x08'
        | 'f' => some '\x0c'
        | _ => none
      let (s, rest2) ← jsonStringBody rest
      some (c :: s, rest2)
  | '\\' :: [] => none
  | c :: rest =>
      if c.toNat < 0x20 then none
      else do
        let (s, rest2) ← jsonStringBody rest
        some (c :: s, rest2)

/-- Insert a binding as repeated Python dict assignment does while building a
JSON object: an existing key keeps its position and takes the new value. -/
def objInsert (d : PyDict) (k : String) (v : PyVal) : PyDict :=
  pySet d k v

mutual
def jsonParseVal (fuel : Nat) (cs : List Char) : Option (PyVal × List Char) :=
  match fuel with
  | 0 => none
  | fuel + 1 =>
    match jsonSkipWs cs with
    | [] => none
    | '"' :: rest => do
        let (s, rest2) ← jsonStringBody rest
        some (.str (String.mk s), rest2)
    | '{' :: rest =>
        (match jsonSkipWs rest with
        | '}' :: rest2 => some (.dict [], rest2)
        | _ => do
            let (d, rest2) ← jsonParseMembers fuel rest []
            some (.dict d, rest2))
    | '[' :: rest =>
        (match jsonSkipWs rest with
        | ']' :: rest2 => some (.list [], rest2)
        | _ => do
            let (l, rest2) ← jsonParseItems fuel rest
            some (.list l, rest2))
    | 't' :: 'r' :: 'u' :: 'e' :: rest => some (.pybool true, rest)
    | 'f' :: 'a' :: 'l' :: 's' :: 'e' :: rest => some (.pybool false, rest)
    | 'n' :: 'u' :: 'l' :: 'l' :: rest => some (.null, rest)
    | '-' :: rest => do
        let (q, rest2) ← jsonNumBody rest
        some (.num (-q), rest2)
    | c :: rest =>
        if c.isDigit then do
          let (q, rest2) ← jsonNumBody (c :: rest)
          some (.num q, rest2)
        else none

def jsonParseMembers (fuel : Nat) (cs : List Char) (acc : PyDict) :
    Option (PyDict × List Char) :=
  match fuel with
  | 0 => none
  | fuel + 1 =>
    match jsonSkipWs cs with
    | '"' :: rest => do
        let (k, rest2) ← jsonStringBody rest
        match jsonSkipWs rest2 with
        | ':' :: rest3 => do
            let (v, rest4) ← jsonParseVal fuel rest3
            let acc2 := objInsert acc (String.mk k) v
            match jsonSkipWs rest4 with
            | ',' :: rest5 => jsonParseMembers fuel rest5 acc2
            | '}' :: rest5 => some (acc2, rest5)
            | _ => none
        | _ => none
    | _ => none

def jsonParseItems (fuel : Nat) (cs : List Char) : Option (List PyVal × List Char) :=
  match fuel with
  | 0 => none
  | fuel + 1 => do
    let (v, rest) ← jsonParseVal fuel cs
    match jsonSkipWs rest with
    | ',' :: rest2 => do
        let (l, rest3) ← jsonParseItems fuel rest2
        some (v :: l, rest3)
    | ']' :: rest2 => some ([v], rest2)
    | _ => none
end

/-- Python json.loads(s): parse one JSON value and require only whitespace
after it; any violation raises JSONDecodeError, modelled as none. -/
def jsonLoads (s : String) : Option PyVal := do
  let (v, rest) ← jsonParseVal (s.data.length + 1) s.data
  if (jsonSkipWs rest).isEmpty then some v else none

/-! ## DocumentChunker (scripts/fixed_ollama_processor.py, lines 26-111)

chunk_document splits the word list into fixed windows of chunk_size words,
prefixing every window after the first with the trailing overlap_size words
of the text before it; md5-based chunk ids are an external capability passed
as the chunkIdOf oracle. -/

structure DocumentChunk where
  content : String
  page_start : Nat
  page_end : Nat
  chunk_id : String
  overlap_with_previous : Bool := false
  deriving DecidableEq

/-- The while loop of DocumentChunker.chunk_document, for the case where the
text is longer than one window.  startIdx walks in steps of chunkSize;
budget counts the windows still allowed (initially max_pages, so the loop
guard chunk_num < max_pages is budget > 0); chunkNum is the absolute chunk
number used for the page fields. -/
def chunkLoop (chunkIdOf : String → String) (words : List String)
    (chunkSize overlapSize maxPages : Nat) :
    Nat → Nat → Nat → List DocumentChunk
  | _, _, 0 => []
  | startIdx, chunkNum, budget + 1 =>
      if startIdx < words.length then
        let endIdx := min (startIdx + chunkSize) words.length
        let baseWords := (words.drop startIdx).take (endIdx - startIdx)
        let chunkWords :=
          if 0 < startIdx then
            let overlapStart := startIdx - overlapSize
            ((words.drop overlapStart).take (startIdx - overlapStart)) ++ baseWords
          else baseWords
        let content := pyJoin " " chunkWords
        { content := content, page_start := chunkNum + 1,
          page_end := min (chunkNum + 1) maxPages,
          chunk_id := chunkIdOf content,
          overlap_with_previous := decide (0 < startIdx) } ::
        chunkLoop chunkIdOf words chunkSize overlapSize maxPages
          (startIdx + chunkSize) (chunkNum + 1) budget
      else []

/-- DocumentChunker.chunk_document(text, max_pages). -/
def chunk_document (chunkIdOf : String → String) (chunkSize overlapSize : Nat)
    (text : String) (maxPages : Nat) : List DocumentChunk :=
  let words := pySplitWords text
  if words.length ≤ chunkSize then
    [{ content := text, page_start := 1,
       page_end := min maxPages (pyLen text / 500 + 1),
       chunk_id := chunkIdOf text, overlap_with_previous := false }]
  else chunkLoop chunkIdOf words chunkSize overlapSize maxPages 0 0 maxPages

/-- The fresh (non-overlap) words of each window produced by chunkLoop: the
chunk contents with the injected overlap prefixes removed, at the word
level. -/
def chunkMains (words : List String) (chunkSize : Nat) : Nat → Nat → List (List String)
  | _, 0 => []
  | startIdx, budget + 1 =>
      if startIdx < words.length then
        let endIdx := min (startIdx + chunkSize) words.length
        (words.drop startIdx).take (endIdx - startIdx) ::
          chunkMains words chunkSize (startIdx + chunkSize) budget
      else []

/-- The injected overlap prefix of each window produced by chunkLoop, at the
word level (empty for the first window). -/
def chunkOvs (words : List String) (chunkSize overlapSize : Nat) :
    Nat → Nat → List (List String)
  | _, 0 => []
  | startIdx, budget + 1 =>
      if startIdx < words.length then
        (if 0 < startIdx then
          (words.drop (startIdx - overlapSize)).take (startIdx - (startIdx - overlapSize))
         else []) ::
          chunkOvs words chunkSize overlapSize (startIdx + chunkSize) budget
      else []

/-- Number of words of injected overlap carried by chunk number i, as
produced by chunkLoop (chunk i starts at word i * chunkSize). -/
def overlapWordCount (chunkSize overlapSize i : Nat) : Nat :=
  if i = 0 then 0 else min overlapSize (i * chunkSize)

/-- The concatenation of the chunks of a document after removing each
chunk's injected overlap prefix, as a word sequence. -/
def strippedConcat (chunkSize overlapSize : Nat) (chunks : List DocumentChunk) :
    List String :=
  (((List.range chunks.length).zip chunks).map
    (fun p => (pySplitWords p.2.content).drop (overlapWordCount chunkSize overlapSize p.1))).flatten

theorem take_drop_norm (words : List String) (s c : Nat) :
    (words.drop s).take (min (s + c) words.length - s) = (words.drop s).take c := by
  rw [List.take_eq_take]
  simp only [List.length_drop]
  omega

theorem chunkMains_join (words : List String) (cs : Nat) :
    ∀ b s, (chunkMains words cs s b).flatten = (words.drop s).take (b * cs)
  | 0, s => by simp [chunkMains]
  | b + 1, s => by
      rw [chunkMains]
      by_cases hs : s < words.length
      · simp only [hs, if_true, List.flatten_cons]
        rw [take_drop_norm, chunkMains_join words cs b (s + cs)]
        have hd : words.drop (s + cs) = (words.drop s).drop cs := by
          rw [List.drop_drop]
        rw [hd, Nat.succ_mul, Nat.add_comm (b * cs) cs, List.take_add]
      · have : words.drop s = [] := by
          apply List.drop_eq_nil_of_le; omega
        simp [hs, this]

theorem chunkLoop_content_eq (chunkIdOf : String → String) (words : List String)
    (cs os m : Nat) :
    ∀ b s n, (chunkLoop chunkIdOf words cs os m s n b).map (fun c => c.content) =
      List.zipWith (fun ov main => pyJoin " " (ov ++ main))
        (chunkOvs words cs os s b) (chunkMains words cs s b)
  | 0, s, n => by simp [chunkLoop, chunkOvs, chunkMains]
  | b + 1, s, n => by
      rw [chunkLoop, chunkOvs, chunkMains]
      by_cases hs : s < words.length
      · simp only [hs, if_true, List.map_cons, List.zipWith_cons_cons]
        refine congrArg₂ _ ?_ (chunkLoop_content_eq chunkIdOf words cs os m b (s + cs) (n + 1))
        by_cases h0 : 0 < s <;> simp [h0]
      · simp [hs]

theorem chunkLoop_length_le (chunkIdOf : String → String) (words : List String)
    (cs os m : Nat) :
    ∀ b s n, (chunkLoop chunkIdOf words cs os m s n b).length ≤ b
  | 0, s, n => by simp [chunkLoop]
  | b + 1, s, n => by
      rw [chunkLoop]
      by_cases hs : s < words.length
      · simp only [hs, if_true, List.length_cons]
        have := chunkLoop_length_le chunkIdOf words cs os m b (s + cs) (n + 1)
        omega
      · simp [hs]

/-! ## OllamaClient.generate_response and MultiPassAnalyzer
(scripts/fixed_ollama_processor.py, lines 113-304)

The Ollama service is the oracle svc: for a given prompt, svc prompt i is
the outcome of attempt number i (none = the call raised an exception, some
raw = the call returned and response.get("response", "") was raw).  Prompt
construction from the template dict and the .format call is the oracle
promptOf applied to the pass name and the [:1500] content slice, since no
claim depends on the literal template text. -/

/-- The retry loop inside OllamaClient.generate_response: attempt is the
next attempt index, the second argument the number of attempts left. -/
def genLoop (svc : String → Nat → Option String) (prompt : String) :
    Nat → Nat → Option String
  | _, 0 => none
  | attempt, remaining + 1 =>
      match svc prompt attempt with
      | some raw => some (pyStrip raw)
      | none => genLoop svc prompt (attempt + 1) remaining

/-- OllamaClient.generate_response(prompt, max_retries=3): return the first
attempt that does not raise, stripped; an attempt that raises consumes one
retry (with backoff sleep, invisible here); all retries exhausted yields
None. -/
def generate_response (svc : String → Nat → Option String) (prompt : String)
    (maxRetries : Nat := 3) : Option String :=
  genLoop svc prompt 0 maxRetries

/-- Python s.find(c): index of the first occurrence, or none for -1. -/
def strFindChar (s : String) (c : Char) : Option Nat :=
  s.data.findIdx? (· == c)

/-- Python s.rfind(c): index of the last occurrence, or none for -1. -/
def strRFindChar (s : String) (c : Char) : Option Nat :=
  match s.data.reverse.findIdx? (· == c) with
  | some i => some (s.data.length - 1 - i)
  | none => none

/-- Python s[a:b] for 0 ≤ a ≤ b. -/
def pySlice (s : String) (a b : Nat) : String :=
  String.mk ((s.data.drop a).take (b - a))

/-- MultiPassAnalyzer._extract_json: empty text yields None; then a direct
json.loads of the stripped text; then json.loads of the substring between
the first opening brace and the last closing brace; else None. -/
def fixed_extract_json (response_text : String) : Option PyVal :=
  if response_text = "" then none
  else
    match jsonLoads (pyStrip response_text) with
    | some v => some v
    | none =>
        match strFindChar response_text '{', strRFindChar response_text '}' with
        | some first_brace, some last_brace =>
            if first_brace < last_brace then
              jsonLoads (pySlice response_text first_brace (last_brace + 1))
            else none
        | _, _ => none

/-- MultiPassAnalyzer._analyze_pass: build the prompt from the pass template
and the first 1500 characters of the chunk content, call generate_response,
map a None or empty response to None, else extract JSON (json failures were
already None; other exceptions are caught and also give None). -/
def analyze_pass (svc : String → Nat → Option String)
    (promptOf : String → String → String) (content passType : String) : Option PyVal :=
  let prompt := promptOf passType (pyTake content 1500)
  match generate_response svc prompt 3 with
  | none => none
  | some r => if r = "" then none else fixed_extract_json r

/-- The AnalysisResult dataclass (fields hold the raw parsed values, whose
runtime types Python does not constrain; authors defaults to None and is not
reset by a post-init default). -/
structure AnalysisResult where
  title : PyVal := .str ""
  authors : PyVal := .null
  summary : PyVal := .str ""
  category : PyVal := .str ""
  keywords : PyVal := .list []
  key_concepts : PyVal := .list []
  technical_details : PyVal := .dict []
  business_context : PyVal := .dict []
  confidence_score : Rat := 0
  deriving DecidableEq

/-- Python v.get(k, d), raising AttributeError when v is not a dict. -/
def pyValGetD (v : PyVal) (k : String) (d : PyVal) : Except String PyVal :=
  match v with
  | .dict m => .ok (pyGetD m k d)
  | _ => .error "AttributeError: no attribute get"

/-- The basic_info block of analyze_chunk: a truthy pass result copies
title, authors, summary and category out of the parsed dict (raising if the
truthy value is not a dict). -/
def applyBasicPass (r : AnalysisResult) : Option PyVal → Except String AnalysisResult
  | some bi =>
      if pyTruthy bi then do
        let t ← pyValGetD bi "title" (.str "")
        let a ← pyValGetD bi "authors" (.list [])
        let s ← pyValGetD bi "summary" (.str "")
        let c ← pyValGetD bi "category" (.str "")
        pure { r with title := t, authors := a, summary := s, category := c }
      else pure r
  | none => pure r

/-- The keywords block of analyze_chunk. -/
def applyKeywordsPass (r : AnalysisResult) : Option PyVal → Except String AnalysisResult
  | some ki =>
      if pyTruthy ki then do
        let kw ← pyValGetD ki "keywords" (.list [])
        let kc ← pyValGetD ki "key_concepts" (.list [])
        pure { r with keywords := kw, key_concepts := kc }
      else pure r
  | none => pure r

/-- The technical block of analyze_chunk: the whole truthy pass result is
stored. -/
def applyTechnicalPass (r : AnalysisResult) : Option PyVal → AnalysisResult
  | some ti => if pyTruthy ti then { r with technical_details := ti } else r
  | none => r

/-- The business block of analyze_chunk. -/
def applyBusinessPass (r : AnalysisResult) : Option PyVal → AnalysisResult
  | some bi => if pyTruthy bi then { r with business_context := bi } else r
  | none => r

/-- MultiPassAnalyzer.analyze_chunk: run the four passes in order, copy the
fields each truthy pass result provides, and score confidence as the number
of truthy pass results over 4. -/
def analyze_chunk (svc : String → Nat → Option String)
    (promptOf : String → String → String) (chunk : DocumentChunk) :
    Except String AnalysisResult := do
  let basic_info := analyze_pass svc promptOf chunk.content "basic_info"
  let keywords_info := analyze_pass svc promptOf chunk.content "keywords"
  let technical_info := analyze_pass svc promptOf chunk.content "technical"
  let business_info := analyze_pass svc promptOf chunk.content "business"
  let r ← applyBasicPass {} basic_info
  let r ← applyKeywordsPass r keywords_info
  let r := applyTechnicalPass r technical_info
  let r := applyBusinessPass r business_info
  let successes : Nat :=
    (pyTruthyOpt basic_info).toNat + (pyTruthyOpt keywords_info).toNat +
    (pyTruthyOpt technical_info).toNat + (pyTruthyOpt business_info).toNat
  pure { r with confidence_score := (successes : Rat) / 4 }

/-! ## ResultAggregator (scripts/fixed_ollama_processor.py, lines 306-391) -/

/-- Python list.extend(v): concatenate an iterable (a string iterates its
characters, a dict its keys); non-iterables raise TypeError. -/
def pyExtendIter (acc : List PyVal) (v : PyVal) : Except String (List PyVal) :=
  match v with
  | .list l => .ok (acc ++ l)
  | .str s => .ok (acc ++ s.data.map (fun c => .str (String.mk [c])))
  | .dict d => .ok (acc ++ d.map (fun kv => PyVal.str kv.1))
  | _ => .error "TypeError: not iterable"

/-- Deduplication keeping the first occurrence, on a fuel that the list
length bounds (each step filters, which never grows the list). -/
def dedupFirst {α : Type} [DecidableEq α] : Nat → List α → List α
  | _, [] => []
  | 0, l => l
  | fuel + 1, x :: xs => x :: dedupFirst fuel (xs.filter (fun y => y ≠ x))

/-- list(dict.fromkeys(xs)) in Python: deduplicate keeping first
occurrences.  Total core of the operation, defined on hashable inputs. -/
def pyDedup {α : Type} [DecidableEq α] (l : List α) : List α :=
  dedupFirst l.length l

/-- A value usable as a dict key: lists and dicts are unhashable in
Python. -/
def pyHashable : PyVal → Bool
  | .list _ => false
  | .dict _ => false
  | _ => true

/-- list(dict.fromkeys(xs)) with its raise path: inserting an unhashable
element (a list or dict) raises TypeError; otherwise the keys come out
deduplicated in first-seen order. -/
def pyDedupE (l : List PyVal) : Except String (List PyVal) :=
  if l.all pyHashable then .ok (pyDedup l) else .error "TypeError: unhashable type"

/-- The cleanup loop over a merged technical/business dict: each list value
is deduplicated (raising on unhashable elements as dict.fromkeys does) and
truncated to five; non-list values are left as they are. -/
def dedupDictVals : List (String × PyVal) → Except String (List (String × PyVal))
  | [] => .ok []
  | (k, v) :: rest => do
      let hd ←
        match v with
        | .list l => do
            let dl ← pyDedupE l
            pure (k, PyVal.list (dl.take 5))
        | v => pure (k, v)
      let rest2 ← dedupDictVals rest
      pure (hd :: rest2)

/-- The merge loop of aggregate_results over one technical_details or
business_context dict: each key accumulates a list, extended by list values
and appended to by scalar values (entries of the accumulator are always
lists at this point, so the lookup defaults to []). -/
def mergeDictInto (acc : PyDict) (m : PyDict) : PyDict :=
  m.foldl
    (fun a kv =>
      let cur : List PyVal :=
        match pyGet a kv.1 with
        | some (.list l) => l
        | _ => []
      match kv.2 with
      | .list l => pySet a kv.1 (.list (cur ++ l))
      | v => pySet a kv.1 (.list (cur ++ [v])))
    acc

/-- Occurrence count, for Counter. -/
def countOcc (xs : List String) (x : String) : Nat :=
  (xs.filter (fun y => y = x)).length

/-- Counter(xs).most_common(1)[0][0] for a non-empty xs: the value with the
highest count; a tie keeps the earliest first occurrence, since most_common
sorts the counter stably and the counter records keys in first-insertion
order. -/
def modeFirst (x : String) (xs : List String) : String :=
  (pyDedup xs).foldl
    (fun best c => if countOcc (x :: xs) c > countOcc (x :: xs) best then c else best) x

/-- Python max(results, key=confidence): the first element whose score no
later element strictly exceeds. -/
def maxByConfidence (x : AnalysisResult) (xs : List AnalysisResult) : AnalysisResult :=
  xs.foldl (fun best r => if r.confidence_score > best.confidence_score then r else best) x

/-- Python `a or b`. -/
def pyOr (a b : PyVal) : PyVal :=
  if pyTruthy a then a else b

/-- ResultAggregator._get_empty_result. -/
def get_empty_result : PyDict :=
  [("title", .str ""), ("summary", .str ""), ("category", .str "Technology"),
   ("keywords", .list []), ("key_concepts", .list []),
   ("technical_details", .dict []), ("business_context", .dict []),
   ("confidence_score", .num 0)]

/-- The truthy string values stored under complexity_level across all chunk
results, in order. -/
def complexityLevels (rs : List AnalysisResult) : List String :=
  rs.flatMap (fun r =>
    match r.technical_details with
    | .dict m =>
        (m.filter (fun kv =>
          kv.1 == "complexity_level" &&
          match kv.2 with
          | .str s => s != ""
          | _ => false)).map (fun kv =>
            match kv.2 with
            | .str s => s
            | _ => "")
    | _ => [])

/-- One iteration of the aggregation loop over chunk results: extend the
keyword and concept accumulators and merge the technical and business
dicts (iterating a non-dict or extending by a non-iterable raises). -/
def aggStep (acc : List PyVal × List PyVal × PyDict × PyDict) (r : AnalysisResult) :
    Except String (List PyVal × List PyVal × PyDict × PyDict) := do
  let (ks, cs, tech, biz) := acc
  let ks ← pyExtendIter ks r.keywords
  let cs ← pyExtendIter cs r.key_concepts
  let tech ←
    match r.technical_details with
    | .dict m => pure (mergeDictInto tech m)
    | _ => Except.error "AttributeError: no attribute items"
  let biz ←
    match r.business_context with
    | .dict m => pure (mergeDictInto biz m)
    | _ => Except.error "AttributeError: no attribute items"
  pure (ks, cs, tech, biz)

/-- ResultAggregator.aggregate_results: scalar fields from the
highest-confidence chunk (ties to the earliest), list fields unioned,
deduplicated in first-seen order and truncated, dict fields merged per key
and deduplicated, complexity_level resolved by majority vote, confidence
averaged.  Iterating a non-dict technical_details or business_context,
extending by a non-iterable keywords or key_concepts value, or
deduplicating an unhashable (list or dict) element with dict.fromkeys,
raises, which the Except models. -/
def aggregate_results (chunk_results : List AnalysisResult) : Except String PyDict :=
  match chunk_results with
  | [] => .ok get_empty_result
  | first :: rest => do
    let best_result := maxByConfidence first rest
    let (all_keywords, all_concepts, all_technical, all_business) ←
      (first :: rest).foldlM aggStep ([], [], [], [])
    let unique_keywords ← pyDedupE all_keywords
    let unique_keywords := unique_keywords.take 10
    let unique_concepts ← pyDedupE all_concepts
    let unique_concepts := unique_concepts.take 10
    let all_technical ← dedupDictVals all_technical
    let all_business ← dedupDictVals all_business
    let all_technical :=
      match complexityLevels (first :: rest) with
      | [] => all_technical
      | c :: cs => pySet all_technical "complexity_level" (.str (modeFirst c cs))
    pure
      [("title", best_result.title),
       ("authors", pyOr best_result.authors (.list [])),
       ("summary", best_result.summary),
       ("category", best_result.category),
       ("keywords", .list unique_keywords),
       ("key_concepts", .list unique_concepts),
       ("technical_details", .dict all_technical),
       ("business_context", .dict all_business),
       ("confidence_score",
        .num (((chunk_results.map (fun r => r.confidence_score)).sum) /
          (chunk_results.length : Rat)))]

/-! ## BulletproofOllamaDocumentProcessor._validate_and_clean
(scripts/bulletproof_ollama_processor.py, lines 322-380) -/

/-- The fixed category enum shared by the processors. -/
def valid_categories : List String :=
  ["AI", "Machine Learning", "Data Science", "Analytics", "Business",
   "Technology", "Research"]

/-- The fixed difficulty enum used by bulletproof and ultimate validation. -/
def valid_difficulties : List String :=
  ["Beginner", "Intermediate", "Advanced"]

/-- filename.replace(".pdf", "").replace("_", " ").replace("-", " "). -/
def cleanTitleOf (filename : String) : String :=
  pyReplace (pyReplace (pyReplace filename ".pdf" "") "_" " ") "-" " "

/-- The category value is a member of the enum (a missing key is None and a
non-string never equals a string). -/
def categoryValid (v : Option PyVal) : Bool :=
  match v with
  | some (.str s) => valid_categories.contains s
  | _ => false

/-- The difficulty value is a member of the 3-value enum. -/
def difficultyValid (v : Option PyVal) : Bool :=
  match v with
  | some (.str s) => valid_difficulties.contains s
  | _ => false

/-- The filename-keyword category inference inside _validate_and_clean. -/
def inferCategoryValidate (filename : String) : String :=
  let fl := pyLower filename
  if ["ai", "artificial"].any (fun w => pyContains fl w) then "AI"
  else if ["machine", "learning", "ml"].any (fun w => pyContains fl w) then "Machine Learning"
  else if ["data", "analytics", "science"].any (fun w => pyContains fl w) then "Data Science"
  else if ["business"].any (fun w => pyContains fl w) then "Business"
  else "Technology"

/-- Python str(v) as used by an f-string.  Only the string case is exercised
by the function below (the interpolated values are forced to strings
earlier); the other renderings are coarse placeholders for values that
cannot reach them. -/
def pyFStr (v : PyVal) : String :=
  match v with
  | .str s => s
  | .pybool b => if b then "True" else "False"
  | .null => "None"
  | .num q => toString q
  | .list _ => "[...]"
  | .dict _ => "{...}"

/-- Python v[:n] + "..." on a sliceable value: strings slice and concatenate;
a list slices but cannot be concatenated with a string; a dict raises on
slicing. -/
def pySliceEllipsis (v : PyVal) (n : Nat) : Except String PyVal :=
  match v with
  | .str s => .ok (.str (pyTake s n ++ "..."))
  | .list _ => .error "TypeError: can only concatenate list (not str) to list"
  | _ => .error "TypeError: unhashable type slice"

/-- The title block of _validate_and_clean: a falsy title, or one whose
stripped length is under 3, is replaced by the cleaned filename; stripping a
truthy non-string raises. -/
def vcTitleStep (data : PyDict) (filename : String) : Except String PyDict :=
  if !(pyTruthyOpt (pyGet data "title")) then
    .ok (pySet data "title" (.str (cleanTitleOf filename)))
  else do
    let s ← pyValStrip ((pyGet data "title").getD .null)
    if s.data.length < 3 then
      .ok (pySet data "title" (.str (cleanTitleOf filename)))
    else .ok data

/-- The category block: a value outside the enum is replaced by the
filename inference. -/
def vcCategoryStep (data : PyDict) (filename : String) : PyDict :=
  if !(categoryValid (pyGet data "category")) then
    pySet data "category" (.str (inferCategoryValidate filename))
  else data

/-- The difficulty block: a value outside the 3-value enum becomes
Intermediate. -/
def vcDifficultyStep (data : PyDict) : PyDict :=
  if !(difficultyValid (pyGet data "difficulty")) then
    pySet data "difficulty" (.str "Intermediate")
  else data

/-- The keywords block: coerce to a list (wrapping a string), truncate to
five, and fall back to [data["category"], "Document"] when empty (the bare
index raises KeyError on a missing category, though the category block
always runs first). -/
def vcKeywordsStep (data : PyDict) : Except String PyDict :=
  let data :=
    match pyGet data "keywords" with
    | some (.list _) => data
    | some (.str s) => pySet data "keywords" (.list [.str s])
    | _ => pySet data "keywords" (.list [])
  let kw : List PyVal :=
    match pyGet data "keywords" with
    | some (.list l) => l
    | _ => []
  let kw := kw.take 5
  let data := pySet data "keywords" (.list kw)
  if kw.isEmpty then
    match pyGet data "category" with
    | some cv => .ok (pySet data "keywords" (.list [cv, .str "Document"]))
    | none => .error "KeyError: category"
  else .ok data

/-- The authors block: coerce to a list, wrapping a non-empty string. -/
def vcAuthorsStep (data : PyDict) : PyDict :=
  match pyGet data "authors" with
  | some (.list _) => data
  | some (.str s) =>
      if s ≠ "" then pySet data "authors" (.list [.str s])
      else pySet data "authors" (.list [])
  | _ => pySet data "authors" (.list [])

/-- The templated summary synthesised from title and category. -/
def vcSynthSummary (tl cl : String) : String :=
  "This document covers " ++ tl ++
    " providing comprehensive information and insights on " ++ cl ++ "."

/-- The summary block: a falsy or short summary is synthesised from title
and category, an over-long one is truncated with an ellipsis. -/
def vcSummaryStep (data : PyDict) : Except String PyDict :=
  if !(pyTruthyOpt (pyGet data "summary")) then do
    let tl ← pyValLower ((pyGet data "title").getD .null)
    let cl ← pyValLower ((pyGet data "category").getD .null)
    .ok (pySet data "summary" (.str (vcSynthSummary tl cl)))
  else do
    let v := (pyGet data "summary").getD .null
    let n ← pyValLen v
    if n < 20 then do
      let tl ← pyValLower ((pyGet data "title").getD .null)
      let cl ← pyValLower ((pyGet data "category").getD .null)
      .ok (pySet data "summary" (.str (vcSynthSummary tl cl)))
    else if n > 300 then do
      let v2 ← pySliceEllipsis v 297
      .ok (pySet data "summary" v2)
    else .ok data

/-- The content_preview block: default to Document: title, truncate over
100 characters. -/
def vcPreviewStep (data : PyDict) : Except String PyDict :=
  if !(pyTruthyOpt (pyGet data "content_preview")) then
    .ok (pySet data "content_preview"
      (.str ("Document: " ++ pyFStr ((pyGet data "title").getD .null))))
  else do
    let v := (pyGet data "content_preview").getD .null
    let n ← pyValLen v
    if n > 100 then do
      let v2 ← pySliceEllipsis v 97
      .ok (pySet data "content_preview" v2)
    else .ok data

/-- BulletproofOllamaDocumentProcessor._validate_and_clean(data, filename):
the seven blocks in source order, with Python exceptions (attribute errors
on .strip and .lower of non-strings, type errors on len and slicing)
surfaced in the Except. -/
def validate_and_clean (data0 : PyDict) (filename : String) : Except String PyDict := do
  let data ← vcTitleStep data0 filename
  let data := vcCategoryStep data filename
  let data := vcDifficultyStep data
  let data ← vcKeywordsStep data
  let data := vcAuthorsStep data
  let data ← vcSummaryStep data
  vcPreviewStep data

/-- The title field of a record, when present and truthy, is a string of at
most n characters.  The validator strips a truthy title, so a truthy
non-string makes it raise; the bound caps the synthesised summary. -/
def vcTitleOk (data : PyDict) (n : Nat) : Bool :=
  match pyGet data "title" with
  | some (.str s) => s.data.length ≤ n
  | some v => !(pyTruthy v)
  | none => true

/-- The field, when present and truthy, is a string.  The validator takes
len() and string slices of a truthy summary and content_preview, so other
truthy values make it raise or keep a non-string summary. -/
def vcStrOrFalsy (data : PyDict) (k : String) : Bool :=
  match pyGet data k with
  | some (.str _) => true
  | some v => !(pyTruthy v)
  | none => true

/-! ## Regex emulation for UltimateOllamaDocumentProcessor
(scripts/ultimate_ollama_processor.py, lines 79-305)

Each Python regex used by the parser cascade is modelled by a dedicated
scanner with the exact leftmost/greedy/backtracking behaviour of the
pattern on arbitrary input. -/

/-- One step of re.sub with an unanchored scan: the tag-removal regex
r"<[^>]+>" removes a < through the first following >, provided at least one
character stands between them. -/
def stripTags : Nat → List Char → List Char
  | _, [] => []
  | 0, l => l
  | fuel + 1, c :: cs =>
      if c = '<' then
        match cs.findIdx? (· == '>') with
        | some i => if 1 ≤ i then stripTags fuel (cs.drop (i + 1)) else c :: stripTags fuel cs
        | none => c :: stripTags fuel cs
      else c :: stripTags fuel cs

/-- The body of one match of the block regex r"\{(?:[^{}]|{[^{}]*})*\}",
entered just after the opening brace: consume non-brace characters and
complete one-level inner blocks greedily; the match closes at the first
position where neither unit applies, which must hold a closing brace. -/
def matchABody : Nat → List Char → Option (List Char × List Char)
  | _, [] => none
  | 0, _ => none
  | fuel + 1, c :: cs =>
      if c = '}' then some ([], cs)
      else if c = '{' then
        let inner := cs.takeWhile (fun x => x ≠ '{' && x ≠ '}')
        match cs.drop inner.length with
        | '}' :: rest2 =>
            match matchABody fuel rest2 with
            | some (body, rest3) => some ('{' :: (inner ++ '}' :: body), rest3)
            | none => none
        | _ => none
      else
        match matchABody fuel cs with
        | some (body, rest2) => some (c :: body, rest2)
        | none => none

/-- re.findall of the block regex: leftmost non-overlapping matches, the
scan resuming after each match.  The fuel starts at the input length, which
bounds the number of scan steps since every step consumes at least one
character. -/
def findAllA (fuel : Nat) (cs : List Char) : List String :=
  match fuel with
  | 0 => []
  | fuel + 1 =>
      match cs with
      | [] => []
      | '{' :: rest =>
          match matchABody (rest.length + 1) rest with
          | some (body, rest2) => String.mk ('{' :: (body ++ ['}'])) :: findAllA fuel rest2
          | none => findAllA fuel rest
      | _ :: rest => findAllA fuel rest

/-- One match attempt of r"\{[^{}]*\}" just after the opening brace. -/
def matchBBody (cs : List Char) : Option (List Char × List Char) :=
  let inner := cs.takeWhile (fun x => x ≠ '{' && x ≠ '}')
  match cs.drop inner.length with
  | '}' :: rest => some (inner, rest)
  | _ => none

/-- re.findall of r"\{[^{}]*\}". -/
def findAllB (fuel : Nat) (cs : List Char) : List String :=
  match fuel with
  | 0 => []
  | fuel + 1 =>
      match cs with
      | [] => []
      | '{' :: rest =>
          match matchBBody rest with
          | some (body, rest2) => String.mk ('{' :: (body ++ ['}'])) :: findAllB fuel rest2
          | none => findAllB fuel rest
      | _ :: rest => findAllB fuel rest

/-- One match attempt of r"\{[^{}]*\[[^\]]*\][^{}]*\}" just after the
opening brace: the engine backtracks over the bracket chosen inside the
leading non-brace run, preferring the rightmost; from the chosen bracket
the inner class runs to the first closing square bracket anywhere (it may
cross braces), then a non-brace run must end at a closing brace. -/
def matchCFrom (cs : List Char) (run : List Char) (idxs : List Nat) :
    Option (List Char × List Char) :=
  match idxs with
  | [] => none
  | i :: rest =>
      let afterBracket := cs.drop (i + 1)
      match afterBracket.findIdx? (· == ']') with
      | some j =>
          let afterClose := afterBracket.drop (j + 1)
          let run2 := afterClose.takeWhile (fun x => x ≠ '{' && x ≠ '}')
          match afterClose.drop run2.length with
          | '}' :: rest2 =>
              some ((cs.take (i + 1)) ++ (afterBracket.take j) ++ ']' :: run2, rest2)
          | _ => matchCFrom cs run rest
      | none => matchCFrom cs run rest

/-- Match attempt of the C pattern after the opening brace. -/
def matchCBody (cs : List Char) : Option (List Char × List Char) :=
  let run := cs.takeWhile (fun x => x ≠ '{' && x ≠ '}')
  let idxs := ((List.range run.length).filter (fun i => run.getD i ' ' = '[')).reverse
  matchCFrom cs run idxs

/-- re.findall of the C pattern. -/
def findAllC (fuel : Nat) (cs : List Char) : List String :=
  match fuel with
  | 0 => []
  | fuel + 1 =>
      match cs with
      | [] => []
      | '{' :: rest =>
          match matchCBody rest with
          | some (body, rest2) => String.mk ('{' :: (body ++ ['}'])) :: findAllC fuel rest2
          | none => findAllC fuel rest
      | _ :: rest => findAllC fuel rest

/-- Maximal run of word characters (the regex \w over the ASCII inputs the
pipeline sees) and the remainder. -/
def isWordChar (c : Char) : Bool :=
  c.isAlphanum || c = '_'

def wordRun : List Char → (List Char × List Char)
  | [] => ([], [])
  | c :: cs =>
      if isWordChar c then ((c :: (wordRun cs).1), (wordRun cs).2)
      else ([], c :: cs)

theorem wordRun_rest_le : ∀ cs : List Char, (wordRun cs).2.length ≤ cs.length
  | [] => by simp [wordRun]
  | c :: cs => by
      by_cases h : isWordChar c
      · have := wordRun_rest_le cs
        simp only [wordRun, h, if_true, List.length_cons]
        omega
      · simp [wordRun, h]

/-- re.sub(r"(\w+):", r'"\1":') — quote bare keys.  A maximal word run
directly followed by a colon is wrapped in quotes; the scan resumes after
the colon. -/
def fixKeys : Nat → List Char → List Char
  | _, [] => []
  | 0, l => l
  | fuel + 1, c :: cs =>
      if isWordChar c then
        match (wordRun cs).2 with
        | ':' :: rest2 => '"' :: c :: ((wordRun cs).1 ++ '"' :: ':' :: fixKeys fuel rest2)
        | _ => c :: ((wordRun cs).1 ++ fixKeys fuel (wordRun cs).2)
      else c :: fixKeys fuel cs

/-- Characters the bare-value capture class [^",\[\]{}] accepts. -/
def isBareValueChar (c : Char) : Bool :=
  !(c = '"' || c = ',' || c = '[' || c = ']' || c = '{' || c = '}')

/-- re.sub(r":\s*([^\",\[\]{}]+)(?=\s*[,}])", r": \"\1\"") — quote bare
values.  After a colon the engine consumes whitespace then a maximal run of
the allowed class; the lookahead holds exactly when the stopper is a comma
or closing brace; when the allowed run is empty the whitespace backtracks
one character into the capture.  The lookahead is not consumed, so the scan
resumes at the stopper. -/
def fixValuesStep (cs : List Char) : Option (List Char × List Char) :=
  let a := cs.takeWhile isPyWs
  let rest := cs.drop a.length
  let b := rest.takeWhile isBareValueChar
  let rest2 := rest.drop b.length
  let stopperOk :=
    match rest2 with
    | x :: _ => x = ',' || x = '}'
    | [] => false
  if stopperOk && (a.length + b.length ≥ 1) then
    let group := if b.isEmpty then [a.getLastD ' '] else b
    some (' ' :: '"' :: (group ++ ['"']), rest2)
  else none

def fixValues : Nat → List Char → List Char
  | _, [] => []
  | 0, l => l
  | fuel + 1, c :: cs =>
      if c = ':' then
        match fixValuesStep cs with
        | some (g, rest2) => ':' :: (g ++ fixValues fuel rest2)
        | none => c :: fixValues fuel cs
      else c :: fixValues fuel cs

/-- re.sub(r",\s*}", "}") — drop a trailing comma before a closing brace. -/
def fixCommaBrace : Nat → List Char → List Char
  | _, [] => []
  | 0, l => l
  | fuel + 1, c :: cs =>
      if c = ',' then
        let ws := cs.takeWhile isPyWs
        match cs.drop ws.length with
        | '}' :: rest => '}' :: fixCommaBrace fuel rest
        | _ => c :: fixCommaBrace fuel cs
      else c :: fixCommaBrace fuel cs

/-- re.sub(r",\s*]", "]") — drop a trailing comma before a closing square
bracket. -/
def fixCommaBracket : Nat → List Char → List Char
  | _, [] => []
  | 0, l => l
  | fuel + 1, c :: cs =>
      if c = ',' then
        let ws := cs.takeWhile isPyWs
        match cs.drop ws.length with
        | ']' :: rest => ']' :: fixCommaBracket fuel rest
        | _ => c :: fixCommaBracket fuel cs
      else c :: fixCommaBracket fuel cs

/-- The four auto-repairs of parse_ollama_response Method 4, in source
order: quote bare keys, quote bare values, drop trailing commas before }
and before ]. -/
def applyJsonFixes (cs : List Char) : List Char :=
  let a := fixKeys cs.length cs
  let b := fixValues a.length a
  let c := fixCommaBrace b.length b
  fixCommaBracket c.length c

/-- Case-insensitive literal match: the remainder on success. -/
def matchLitCi : List Char → List Char → Option (List Char)
  | [], cs => some cs
  | _ :: _, [] => none
  | p :: ps, c :: cs => if charCiEq p c then matchLitCi ps cs else none

/-- Capture [^"]* up to the next double quote, which must exist. -/
def captureToQuote (cs : List Char) : Option (List Char × List Char) :=
  match cs.findIdx? (· == '"') with
  | some i => some (cs.take i, cs.drop (i + 1))
  | none => none

/-- Match at one position: optional quotes around the key, the key (case
insensitive), \s*, the given separator, \s*, then a quoted capture. -/
def matchKeyQuotedAt (quoted : Bool) (sep : Char) (key : List Char) (cs : List Char) :
    Option (List Char) := do
  let cs ← if quoted then
      match cs with
      | '"' :: rest => some rest
      | _ => none
    else some cs
  let cs ← matchLitCi key cs
  let cs ← if quoted then
      match cs with
      | '"' :: rest => some rest
      | _ => none
    else some cs
  let cs := cs.dropWhile isPyWs
  let cs ←
    match cs with
    | c :: rest => if c = sep then some rest else none
    | [] => none
  let cs := cs.dropWhile isPyWs
  match cs with
  | '"' :: rest => (captureToQuote rest).map (·.1)
  | _ => none

/-- Match at one position: the key (case insensitive), \s*, a colon, \s*,
then the greedy capture [^\n,}]* (possibly empty). -/
def matchKeyBareAt (key : List Char) (cs : List Char) : Option (List Char) := do
  let cs ← matchLitCi key cs
  let cs := cs.dropWhile isPyWs
  let cs ←
    match cs with
    | ':' :: rest => some rest
    | _ => none
  let cs := cs.dropWhile isPyWs
  some (cs.takeWhile (fun c => !(c = '\n' || c = ',' || c = '}')))

/-- Match at one position: optional quotes around the key, the key (case
insensitive), \s*, a colon, \s*, an opening square bracket, then the lazy
capture (.*?) up to the first closing bracket (DOTALL). -/
def matchKeyListAt (quoted : Bool) (key : List Char) (cs : List Char) :
    Option (List Char) := do
  let cs ← if quoted then
      match cs with
      | '"' :: rest => some rest
      | _ => none
    else some cs
  let cs ← matchLitCi key cs
  let cs ← if quoted then
      match cs with
      | '"' :: rest => some rest
      | _ => none
    else some cs
  let cs := cs.dropWhile isPyWs
  let cs ←
    match cs with
    | ':' :: rest => some rest
    | _ => none
  let cs := cs.dropWhile isPyWs
  let cs ←
    match cs with
    | '[' :: rest => some rest
    | _ => none
  match cs.findIdx? (· == ']') with
  | some i => some (cs.take i)
  | none => none

/-- re.search: leftmost position where the one-position matcher succeeds. -/
def searchAt {α : Type} (f : List Char → Option α) : List Char → Option α
  | [] => f []
  | c :: cs =>
      match f (c :: cs) with
      | some r => some r
      | none => searchAt f cs

/-- re.finditer of r"\"([^\"]*)\"": all quoted strings, leftmost and
non-overlapping. -/
def quotedStrings : Nat → List Char → List String
  | _, [] => []
  | 0, _ => []
  | fuel + 1, c :: cs =>
      if c = '"' then
        match cs.findIdx? (· == '"') with
        | some i => String.mk (cs.take i) :: quotedStrings fuel (cs.drop (i + 1))
        | none => []
      else quotedStrings fuel cs

/-- Python s.split(","): split on every comma, keeping empty pieces. -/
def splitCommaAux : List Char → List Char → List String
  | [], acc => [String.mk acc.reverse]
  | c :: cs, acc =>
      if c = ',' then String.mk acc.reverse :: splitCommaAux cs []
      else splitCommaAux cs (c :: acc)

/-- The list-field post-processing of extract_fields_with_regex: quoted
items if any, else comma-split tokens stripped of whitespace, dropping
empties. -/
def parseListItems (inner : List Char) : List PyVal :=
  let quoted := quotedStrings inner.length inner
  if quoted.isEmpty then
    ((splitCommaAux inner []).map pyStrip).filter (fun s => s ≠ "") |>.map PyVal.str
  else quoted.map PyVal.str

/-- Index of the first occurrence of sub in hay (Python str.find for
substrings). -/
def listFindSub (sub : List Char) : List Char → Option Nat
  | [] => if sub.isPrefixOf ([] : List Char) then some 0 else none
  | c :: rest =>
      if sub.isPrefixOf (c :: rest) then some 0
      else (listFindSub sub rest).map (· + 1)

/-- Scalar-field extraction: the four label patterns in source order
(quoted key and colon, bare key and colon, bare label with a free capture,
bare key and equals), each searched over the whole text, the first pattern
with a match anywhere winning; the captured group is stripped. -/
def searchScalarField (key label : String) (cs : List Char) : Option String :=
  match searchAt (matchKeyQuotedAt true ':' key.data) cs with
  | some v => some (pyStrip (String.mk v))
  | none =>
    match searchAt (matchKeyQuotedAt false ':' key.data) cs with
    | some v => some (pyStrip (String.mk v))
    | none =>
      match searchAt (matchKeyBareAt label.data) cs with
      | some v => some (pyStrip (String.mk v))
      | none =>
        (searchAt (matchKeyQuotedAt false '=' key.data) cs).map
          (fun v => pyStrip (String.mk v))

/-- List-field extraction: three bracket patterns (quoted key, bare key,
capitalised key, the last two identical under IGNORECASE), then quoted
items or comma-split fallback. -/
def searchListField (key : String) (cs : List Char) : Option (List PyVal) :=
  match searchAt (matchKeyListAt true key.data) cs with
  | some inner => some (parseListItems inner)
  | none =>
    match searchAt (matchKeyListAt false key.data) cs with
    | some inner => some (parseListItems inner)
    | none =>
      (searchAt (matchKeyListAt false key.data) cs).map parseListItems

/-- UltimateOllamaDocumentProcessor.extract_fields_with_regex: the seven
fields in source order; keywords are truncated to five, authors are not. -/
def extract_fields_with_regex (response_text : String) : PyDict :=
  let cs := response_text.data
  let d : PyDict := []
  let d := match searchScalarField "title" "Title" cs with
    | some v => pySet d "title" (.str v)
    | none => d
  let d := match searchScalarField "summary" "Summary" cs with
    | some v => pySet d "summary" (.str v)
    | none => d
  let d := match searchScalarField "category" "Category" cs with
    | some v => pySet d "category" (.str v)
    | none => d
  let d := match searchScalarField "difficulty" "Difficulty" cs with
    | some v => pySet d "difficulty" (.str v)
    | none => d
  let d := match searchListField "keywords" cs with
    | some l => pySet d "keywords" (.list (l.take 5))
    | none => d
  let d := match searchListField "authors" cs with
    | some l => pySet d "authors" (.list l)
    | none => d
  let d := match searchScalarField "content_preview" "Content Preview" cs with
    | some v => pySet d "content_preview" (.str v)
    | none => d
  d

/-- The candidate filter of extract_json_from_response Method 3: the first
block that parses to a dict with more than two fields. -/
def firstDictGt2 (cands : List String) : Option String :=
  cands.findSome? (fun m =>
    match jsonLoads m with
    | some (.dict d) => if 2 < d.length then some m else none
    | _ => none)

/-- The thinking-section and markup strip shared by
extract_json_from_response Methods 1 and 2: after stripping whitespace,
cut everything through a closing think tag (or, with no closing tag, from
the first opening brace), then remove all XML-like tags and strip again. -/
def stripThinkMarkup (response_text : String) : String :=
  let t := pyStrip response_text
  let t :=
    if pyContains t "<think>" then
      match listFindSub "</think>".data t.data with
      | some i => pyStrip (String.mk (t.data.drop (i + 8)))
      | none =>
          match strFindChar t '{' with
          | some j => String.mk (t.data.drop j)
          | none => t
    else t
  pyStrip (String.mk (stripTags t.data.length t.data))

/-- UltimateOllamaDocumentProcessor.extract_json_from_response: empty text
yields None; strip thinking and markup; return the first block-regex match
parsing to a dict with more than two fields (three block patterns in
order); else the substring between the first opening and last closing brace
when it parses to a dict; else None. -/
def extract_json_from_response (response_text : String) : Option String :=
  if response_text = "" then none
  else
    let t := stripThinkMarkup response_text
    let fuel := t.data.length + 1
    match firstDictGt2 (findAllA fuel t.data) with
    | some m => some m
    | none =>
      match firstDictGt2 (findAllB fuel t.data) with
      | some m => some m
      | none =>
        match firstDictGt2 (findAllC fuel t.data) with
        | some m => some m
        | none =>
            match strFindChar t '{', strRFindChar t '}' with
            | some fb, some lb =>
                if fb < lb then
                  let pj := pySlice t fb (lb + 1)
                  match jsonLoads pj with
                  | some (.dict _) => some pj
                  | _ => none
                else none
            | _, _ => none

/-- UltimateOllamaDocumentProcessor.parse_ollama_response: Method 1 direct
parse (accepted only for a dict with more than two fields), Method 2
extract-and-parse, Method 3 regex field extraction (accepted with at least
three fields), Method 4 brace substring with the four auto-repairs, else
None. -/
def parse_ollama_response (response_text : String) : Option PyVal :=
  if response_text = "" then none
  else
    let m1 :=
      match jsonLoads (pyStrip response_text) with
      | some (.dict d) => if 2 < d.length then some (PyVal.dict d) else none
      | _ => none
    match m1 with
    | some v => some v
    | none =>
      let m2 :=
        match extract_json_from_response response_text with
        | some js => jsonLoads js
        | none => none
      match m2 with
      | some v => some v
      | none =>
        let ed := extract_fields_with_regex response_text
        if 3 ≤ ed.length then some (.dict ed)
        else
          if (strFindChar response_text '{').isSome &&
             (strFindChar response_text '}').isSome then
            match strFindChar response_text '{', strRFindChar response_text '}' with
            | some fb, some lb =>
                jsonLoads (String.mk
                  (applyJsonFixes (pySlice response_text fb (lb + 1)).data))
            | _, _ => none
          else none

/-! ## The strategy cascade as the specification words it -/

/-- Parse a string as a structured record: a successful parse that yields an
object. -/
def specParseRecord (s : String) : Option PyVal :=
  match jsonLoads s with
  | some (.dict d) => some (.dict d)
  | _ => none

/-- The substring between the first opening brace and the last closing
brace, when both exist in that order. -/
def braceSubstring (r : String) : Option String :=
  match strFindChar r '{', strRFindChar r '}' with
  | some fb, some lb => if fb < lb then some (pySlice r fb (lb + 1)) else none
  | _, _ => none

/-- Spec strategy 1: direct parse of the whole trimmed text. -/
def specStratDirect (r : String) : Option PyVal :=
  specParseRecord (pyStrip r)

/-- Spec strategy 2: strip thinking and markup sections, then parse. -/
def specStratThink (r : String) : Option PyVal :=
  specParseRecord (stripThinkMarkup r)

/-- Spec strategy 3: parse the substring between the first opening brace
and the last closing brace. -/
def specStratBraces (r : String) : Option PyVal :=
  (braceSubstring r).bind specParseRecord

/-- Spec strategy 4: low-risk auto-repairs — strip trailing commas before a
closing bracket — then parse. -/
def specStratRepair (r : String) : Option PyVal :=
  ((braceSubstring r).map
    (fun s =>
      let a := fixCommaBrace s.data.length s.data
      String.mk (fixCommaBracket a.length a))).bind specParseRecord

/-- Spec strategy 5: field-by-field regex extraction, accepted only when at
least three distinct fields were recovered. -/
def specStratRegex (r : String) : Option PyVal :=
  let d := extract_fields_with_regex r
  if 3 ≤ d.length then some (.dict d) else none

/-- First strategy that succeeds. -/
def firstSuccess (r : String) : List (String → Option PyVal) → Option PyVal
  | [] => none
  | f :: fs =>
      match f r with
      | some v => some v
      | none => firstSuccess r fs

/-- The parser as the claim words it: strategies 1-5 in the claimed order,
first success wins, none when all fail. -/
def parse_spec_order (r : String) : Option PyVal :=
  firstSuccess r
    [specStratDirect, specStratThink, specStratBraces, specStratRepair, specStratRegex]

/-- Code strategy 1, with its acceptance condition: a direct parse is kept
only when it yields an object with more than two fields. -/
def codeStratDirect (r : String) : Option PyVal :=
  match jsonLoads (pyStrip r) with
  | some (.dict d) => if 2 < d.length then some (.dict d) else none
  | _ => none

/-- Code strategy 2: extract a block (thinking/markup strip, block regexes,
brace substring) and parse it. -/
def codeStratExtract (r : String) : Option PyVal :=
  (extract_json_from_response r).bind jsonLoads

/-- Code strategy 4: the brace substring with all four auto-repairs
(quoting bare keys and values, stripping trailing commas), then parse. -/
def codeStratRepair (r : String) : Option PyVal :=
  if (strFindChar r '{').isSome && (strFindChar r '}').isSome then
    match strFindChar r '{', strRFindChar r '}' with
    | some fb, some lb =>
        jsonLoads (String.mk (applyJsonFixes (pySlice r fb (lb + 1)).data))
    | _, _ => none
  else none

/-- The cascade in the order the code actually applies: direct parse,
extract-and-parse, regex field extraction, auto-repairs. -/
def parse_amended_order (r : String) : Option PyVal :=
  if r = "" then none
  else
    firstSuccess r [codeStratDirect, codeStratExtract, specStratRegex, codeStratRepair]

/-! ## FixedOllamaDocumentProcessor: fallback analysis and document assembly
(scripts/fixed_ollama_processor.py, lines 393-725) -/

/-- FixedOllamaDocumentProcessor._infer_category_from_filename. -/
def infer_category_from_filename (filename : String) : String :=
  let fl := pyLower filename
  if ["ai", "artificial"].any (fun w => pyContains fl w) then "AI"
  else if ["machine", "learning", "ml"].any (fun w => pyContains fl w) then "Machine Learning"
  else if ["data", "analytics"].any (fun w => pyContains fl w) then "Data Science"
  else if ["business"].any (fun w => pyContains fl w) then "Business"
  else "Technology"

/-- The keyword_map dict of _extract_keywords_from_filename, in insertion
order. -/
def keyword_map : List (String × String) :=
  [("ai", "AI"), ("machine", "Machine Learning"), ("data", "Data Science"),
   ("learning", "Machine Learning"), ("neural", "Neural Networks"),
   ("deep", "Deep Learning"), ("analytics", "Analytics"),
   ("business", "Business"), ("python", "Python")]

/-- FixedOllamaDocumentProcessor._extract_keywords_from_filename: collect
the mapped keyword for every map entry whose key occurs in the lowercased
filename, without duplicates, falling back to Technology. -/
def extract_keywords_from_filename (filename : String) : List String :=
  let fl := pyLower filename
  let keywords := keyword_map.foldl
    (fun ks kv =>
      if pyContains fl kv.1 && !(ks.contains kv.2) then ks ++ [kv.2] else ks) []
  if keywords.isEmpty then ["Technology"] else keywords

/-- FixedOllamaDocumentProcessor._get_fallback_analysis: the dict returned
when processing fails or the extracted text is empty; note the 0.5
confidence score and the absence of a difficulty key. -/
def get_fallback_analysis (filename : String) : PyDict :=
  let clean_title := cleanTitleOf filename
  let category := infer_category_from_filename filename
  let keywords := extract_keywords_from_filename filename
  let fl := pyLower filename
  let complexity_level :=
    if ["basic", "intro", "beginner", "fundamentals"].any (fun w => pyContains fl w) then
      "basic"
    else if ["advanced", "expert", "deep", "comprehensive"].any (fun w => pyContains fl w) then
      "advanced"
    else "intermediate"
  [("title", .str clean_title),
   ("summary", .str ("This document provides comprehensive coverage of " ++
     pyLower clean_title ++ " concepts and applications.")),
   ("category", .str category),
   ("keywords", .list (keywords.map PyVal.str)),
   ("key_concepts", .list [.str ("Core concepts in " ++ pyLower category)]),
   ("technical_details", .dict [("complexity_level", .str complexity_level)]),
   ("business_context", .dict [("industry", .list [.str "Technology"])]),
   ("confidence_score", .num (mkRat 1 2))]

/-- FixedOllamaDocumentProcessor.analyze_document_enhanced: empty extracted
text short-circuits to the filename fallback; otherwise the multi-chunk
multi-pass analysis runs (abstracted as the nonEmptyAnalyzer capability,
which no claim exercises). -/
def analyze_document_enhanced (nonEmptyAnalyzer : String → String → PyDict)
    (text filename : String) : PyDict :=
  if pyStrip text = "" then get_fallback_analysis filename
  else nonEmptyAnalyzer text filename

/-- Path(name).stem: the filename without its final suffix. -/
def pyStem (name : String) : String :=
  match strRFindChar name '.' with
  | some i => if i = 0 then name else pyTake name i
  | none => name

/-- FixedOllamaDocumentProcessor.process_document: extract text (the
extractedText oracle), run the enhanced analysis, and assemble the
doc_info dict in source order; the md5 of the path is the idOf oracle and
the file stats are the mtimeIso/size oracles. -/
def process_document (nonEmptyAnalyzer : String → String → PyDict)
    (idOf : String → String) (extractedText : String)
    (path name : String) (mtimeIso : String) (size : Nat) : PyDict :=
  let analysis := analyze_document_enhanced nonEmptyAnalyzer extractedText name
  [("id", .str (idOf path)),
   ("filename", .str name),
   ("title", pyGetD analysis "title" (.str (pyReplace (pyStem name) "_" " "))),
   ("authors", pyGetD analysis "authors" (.list [])),
   ("filepath", .str ("documents/" ++ name)),
   ("upload_date", .str mtimeIso),
   ("file_size", .num (size : Rat)),
   ("summary", pyGetD analysis "summary" (.str "")),
   ("keywords", pyGetD analysis "keywords" (.list [])),
   ("key_concepts", pyGetD analysis "key_concepts" (.list [])),
   ("category", pyGetD analysis "category" (.str "Technology")),
   ("difficulty", pyGetD analysis "difficulty" (.str "Intermediate")),
   ("content_preview", pyGetD analysis "content_preview" (.str "")),
   ("target_audience", pyGetD analysis "target_audience" (.str "")),
   ("industry", pyGetD analysis "industry" (.list [])),
   ("business_functions", pyGetD analysis "business_functions" (.list [])),
   ("companies", pyGetD analysis "companies" (.list [])),
   ("technologies", pyGetD analysis "technologies" (.list [])),
   ("processes", pyGetD analysis "processes" (.list [])),
   ("technical_terms", pyGetD analysis "technical_terms" (.list [])),
   ("methodologies", pyGetD analysis "methodologies" (.list [])),
   ("tools_mentioned", pyGetD analysis "tools_mentioned" (.list [])),
   ("prerequisites", pyGetD analysis "prerequisites" (.list [])),
   ("learning_objectives", pyGetD analysis "learning_objectives" (.list [])),
   ("use_cases", pyGetD analysis "use_cases" (.list [])),
   ("benefits_mentioned", pyGetD analysis "benefits_mentioned" (.list [])),
   ("challenges_addressed", pyGetD analysis "challenges_addressed" (.list [])),
   ("best_practices", pyGetD analysis "best_practices" (.list [])),
   ("questions_and_answers", pyGetD analysis "questions_and_answers" (.list [])),
   ("confidence_score", pyGetD analysis "confidence_score" (.num 0))]

/-! ## The incremental merge: scan_and_process
(scripts/fixed_ollama_processor.py, lines 727-781, and
scripts/ollama_processor.py, lines 226-294)

A source PDF file is its path, its name within the documents directory and
the MD5 hash of its current content (an external capability,
oracle-supplied).  The files list models the glob over the documents
directory restricted to regular files, so paths are pairwise distinct.
The durable state is the registry (processed_files.json) and the two corpus
copies (data/documents.json and dist/data/documents.json); a run returns
the new state, whether it wrote the files, and its boolean result. -/

structure SrcFile where
  path : String
  name : String
  hash : String
  deriving DecidableEq

/-- Registry lookup (a Python dict access). -/
def regGet (reg : List (String × String)) (k : String) : Option String :=
  (reg.find? (fun kv => kv.1 == k)).map (·.2)

/-- Registry update, first binding wins as in a Python dict. -/
def regSet (reg : List (String × String)) (k v : String) : List (String × String) :=
  match reg with
  | [] => [(k, v)]
  | (k0, v0) :: rest => if k0 == k then (k0, v) :: rest else (k0, v0) :: regSet rest k v

/-- The filename value of a persisted document record. -/
def docFilename (d : PyDict) : PyVal :=
  pyGetD d "filename" .null

/-- The filename of a record as a string (every record the pipeline writes
stores a string there). -/
def docFilenameStr (d : PyDict) : String :=
  match pyGet d "filename" with
  | some (.str s) => s
  | _ => ""

/-- The sort key comparison of all_documents.sort(key=filename): Python
string comparison on the filename values. -/
def docLe (a b : PyDict) : Prop :=
  strLe (docFilenameStr a) (docFilenameStr b) = true

instance : DecidableRel docLe := fun a b => by
  unfold docLe; infer_instance

instance : IsTotal PyDict docLe where
  total a b := by
    have := lexLe_total (docFilenameStr a).data (docFilenameStr b).data
    simp only [docLe, strLe, Bool.or_eq_true] at this ⊢
    exact this

instance : IsTrans PyDict docLe where
  trans a b c hab hbc := lexLe_trans _ _ _ hab hbc

/-- The reprocessing test of the scan loop: force, or the path absent from
the registry, or the stored hash different from the current one. -/
def needsProcessing (force : Bool) (reg : List (String × String)) (f : SrcFile) : Bool :=
  force || (regGet reg f.path).isNone || (regGet reg f.path != some f.hash)

/-- The loop state of scan_and_process. -/
structure ScanAcc where
  processed_files : List (String × String)
  existing_documents : List PyDict
  new_documents : List PyDict
  updated : Bool
  deriving DecidableEq

/-- One iteration of the scan loop of FixedOllamaDocumentProcessor: a file
that needs processing is processed, its old record dropped by filename, the
fresh record appended and the registry updated in memory. -/
def scanStep (procDoc : SrcFile → PyDict) (force : Bool) (acc : ScanAcc) (f : SrcFile) :
    ScanAcc :=
  if needsProcessing force acc.processed_files f then
    { processed_files := regSet acc.processed_files f.path f.hash,
      existing_documents := acc.existing_documents.filter
        (fun d => !(pyBeq (docFilename d) (.str f.name))),
      new_documents := acc.new_documents ++ [procDoc f],
      updated := true }
  else acc

/-- The bare doc["filename"] access of the scan and reconciliation loops:
a record without the key raises KeyError. -/
def docFilenameE (d : PyDict) : Except String PyVal :=
  match pyGet d "filename" with
  | some v => .ok v
  | none => .error "KeyError: filename"

/-- [doc for doc in docs if doc["filename"] != name]: the comprehension
raises KeyError at a record lacking the filename key; a present value of
any type compares with != (unequal to the name string unless it is that
string). -/
def filterNotNameE (name : String) : List PyDict → Except String (List PyDict)
  | [] => .ok []
  | d :: rest => do
      let v ← docFilenameE d
      let rest2 ← filterNotNameE name rest
      if pyBeq v (.str name) then .ok rest2 else .ok (d :: rest2)

/-- One scan-loop iteration with the KeyError raise path of the old-record
filter surfaced. -/
def scanStepE (procDoc : SrcFile → PyDict) (force : Bool) (acc : ScanAcc)
    (f : SrcFile) : Except String ScanAcc :=
  if needsProcessing force acc.processed_files f then do
    let kept ← filterNotNameE f.name acc.existing_documents
    .ok { processed_files := regSet acc.processed_files f.path f.hash,
          existing_documents := kept,
          new_documents := acc.new_documents ++ [procDoc f],
          updated := true }
  else .ok acc

/-- The scan loop with its raise path: a crash aborts the run, so files
after the offending iteration are never examined. -/
def scanFoldE (procDoc : SrcFile → PyDict) (force : Bool) :
    List SrcFile → ScanAcc → Except String ScanAcc
  | [], acc => .ok acc
  | f :: fs, acc => do
      let acc2 ← scanStepE procDoc force acc f
      scanFoldE procDoc force fs acc2

/-- The durable state after a run. -/
structure ScanResult where
  registry : List (String × String)
  dataDocs : List PyDict
  distDocs : List PyDict
  wrote : Bool
  ret : Bool
  deriving DecidableEq

namespace FixedProc

/-- FixedOllamaDocumentProcessor.scan_and_process(force_reprocess):
early-out when the documents directory is missing or the model cannot be
ensured; load the registry and (unless forced) the working corpus; process
every file needing it; when anything was processed or force is set, write
the merged, filename-sorted corpus to both locations and write the
registry.  No reconciliation of registry paths whose file is gone. -/
def scan_and_process (procDoc : SrcFile → PyDict) (dirExists modelOk : Bool)
    (files : List SrcFile) (force : Bool) (reg0 : List (String × String))
    (docs0 distDocs0 : List PyDict) : ScanResult :=
  if !dirExists then ⟨reg0, docs0, distDocs0, false, false⟩
  else if !modelOk then ⟨reg0, docs0, distDocs0, false, false⟩
  else
    let existing_documents := if force then [] else docs0
    let acc := files.foldl (scanStep procDoc force)
      ⟨reg0, existing_documents, [], false⟩
    if acc.updated || force then
      let all_documents := acc.existing_documents ++ acc.new_documents
      let sorted := List.insertionSort docLe all_documents
      ⟨acc.processed_files, sorted, sorted, true, true⟩
    else ⟨reg0, docs0, distDocs0, false, false⟩

end FixedProc

/-- Path(p).name: the final path component. -/
def pyBasename (p : String) : String :=
  match strRFindChar p '/' with
  | some i => String.mk (p.data.drop (i + 1))
  | none => p

/-- A registry path still exists on disk (the modelled file system is the
set of discovered PDF files). -/
def pathExists (files : List SrcFile) (p : String) : Bool :=
  files.any (fun f => f.path == p)

namespace BaseProc

/-- OllamaDocumentProcessor.scan_and_process: the same scan loop without a
force flag, followed by the deleted-file reconciliation: every registry
path whose file no longer exists drops the records bearing its basename
from the loaded corpus and is deleted from the registry. -/
def scan_and_process (procDoc : SrcFile → PyDict) (dirExists modelOk : Bool)
    (files : List SrcFile) (reg0 : List (String × String))
    (docs0 distDocs0 : List PyDict) : ScanResult :=
  if !dirExists then ⟨reg0, docs0, distDocs0, false, false⟩
  else if !modelOk then ⟨reg0, docs0, distDocs0, false, false⟩
  else
    let acc := files.foldl (scanStep procDoc false) ⟨reg0, docs0, [], false⟩
    let files_to_remove := (acc.processed_files.map (·.1)).filter
      (fun p => !pathExists files p)
    let existing2 := files_to_remove.foldl
      (fun docs p => docs.filter (fun d => !(pyBeq (docFilename d) (.str (pyBasename p)))))
      acc.existing_documents
    let reg2 := acc.processed_files.filter (fun kv => pathExists files kv.1)
    let updated2 := acc.updated || !files_to_remove.isEmpty
    if updated2 then
      let all_documents := existing2 ++ acc.new_documents
      let sorted := List.insertionSort docLe all_documents
      ⟨reg2, sorted, sorted, true, true⟩
    else ⟨reg0, docs0, distDocs0, false, false⟩

/-- The deleted-file removal loop with the KeyError raise path of each
doc["filename"] access surfaced. -/
def removeDeadE : List String → List PyDict → Except String (List PyDict)
  | [], docs => .ok docs
  | p :: ps, docs => do
      let docs2 ← filterNotNameE (pyBasename p) docs
      removeDeadE ps docs2

/-- OllamaDocumentProcessor.scan_and_process with the KeyError raise paths
of the scan-loop and reconciliation doc["filename"] accesses surfaced: a
crash aborts the run before anything is saved. -/
def scan_and_processE (procDoc : SrcFile → PyDict) (dirExists modelOk : Bool)
    (files : List SrcFile) (reg0 : List (String × String))
    (docs0 distDocs0 : List PyDict) : Except String ScanResult :=
  if !dirExists then .ok ⟨reg0, docs0, distDocs0, false, false⟩
  else if !modelOk then .ok ⟨reg0, docs0, distDocs0, false, false⟩
  else do
    let acc ← scanFoldE procDoc false files ⟨reg0, docs0, [], false⟩
    let files_to_remove := (acc.processed_files.map (·.1)).filter
      (fun p => !pathExists files p)
    let existing2 ← removeDeadE files_to_remove acc.existing_documents
    let reg2 := acc.processed_files.filter (fun kv => pathExists files kv.1)
    let updated2 := acc.updated || !files_to_remove.isEmpty
    if updated2 then
      let all_documents := existing2 ++ acc.new_documents
      let sorted := List.insertionSort docLe all_documents
      .ok ⟨reg2, sorted, sorted, true, true⟩
    else .ok ⟨reg0, docs0, distDocs0, false, false⟩

end BaseProc

/-- The dataclass typing of AnalysisResult: list-typed fields hold lists and
dict-typed fields hold dicts. -/
def wfResult (r : AnalysisResult) : Bool :=
  (match r.keywords with | .list _ => true | _ => false) &&
  (match r.key_concepts with | .list _ => true | _ => false) &&
  (match r.technical_details with | .dict _ => true | _ => false) &&
  (match r.business_context with | .dict _ => true | _ => false)

/-- The values a chunk result feeds into the dict.fromkeys deduplications
are hashable: keyword and concept elements, and the technical/business
values (whose list elements are spliced and whose scalars are appended into
the per-key lists). -/
def hashableResult (r : AnalysisResult) : Bool :=
  (match r.keywords with
   | .list l => l.all pyHashable
   | _ => true) &&
  (match r.key_concepts with
   | .list l => l.all pyHashable
   | _ => true) &&
  (match r.technical_details with
   | .dict m => m.all (fun kv =>
       match kv.2 with
       | .list l => l.all pyHashable
       | v => pyHashable v)
   | _ => true) &&
  (match r.business_context with
   | .dict m => m.all (fun kv =>
       match kv.2 with
       | .list l => l.all pyHashable
       | v => pyHashable v)
   | _ => true)

/-- A merged dict value is a list of hashable values (the merge loop only
ever stores lists). -/
def valHashList (v : PyVal) : Bool :=
  match v with
  | .list l => l.all pyHashable
  | _ => false

/-- A merged dict entry holds a list of hashable values. -/
def entryHashList (kv : String × PyVal) : Bool :=
  valHashList kv.2

/-- The aggregation accumulator feeds only hashable values to the final
deduplications. -/
def accHashable (acc : List PyVal × List PyVal × PyDict × PyDict) : Bool :=
  acc.1.all pyHashable && acc.2.1.all pyHashable &&
  acc.2.2.1.all entryHashList && acc.2.2.2.all entryHashList

/-! ## Claim theorems -/

/-- C7 counterexample: with chunk size 1, overlap 1 and a cap of 2 windows
on the three-word text "a b c", the concatenation of the chunk contents
minus their injected overlap prefixes is "a b", not the original text: the
cap drops the excess, so the claimed coverage equality fails while the
chunk count stays within the cap. -/
theorem chunk_coverage_counterexample :
    pyJoin " " (strippedConcat 1 1 (chunk_document (fun _ => "") 1 1 "a b c" 2)) = "a b" ∧
    ("a b" : String) ≠ "a b c" ∧
    (chunk_document (fun _ => "") 1 1 "a b c" 2).length ≤ 2 := by
  refine ⟨by decide, by decide, by decide⟩

/-- C7 amended: the chunk count never exceeds the cap (for a positive cap),
a text of at most one window is returned verbatim as a single chunk, and
for longer texts the chunk contents are exactly the space-joined overlap
prefix plus fresh window, where the fresh windows concatenate to the first
maxPages * chunkSize words of the text (the remainder beyond the cap is
dropped). -/
theorem chunk_coverage_amended (chunkIdOf : String → String) (cs os m : Nat)
    (text : String) (hm : 1 ≤ m) :
    (chunk_document chunkIdOf cs os text m).length ≤ m ∧
    ((pySplitWords text).length ≤ cs →
      (chunk_document chunkIdOf cs os text m).map (fun c => c.content) = [text]) ∧
    (cs < (pySplitWords text).length →
      ((chunk_document chunkIdOf cs os text m).map (fun c => c.content) =
        List.zipWith (fun ov main => pyJoin " " (ov ++ main))
          (chunkOvs (pySplitWords text) cs os 0 m) (chunkMains (pySplitWords text) cs 0 m)) ∧
      (chunkMains (pySplitWords text) cs 0 m).flatten =
        (pySplitWords text).take (m * cs)) := by
  refine ⟨?_, ?_, ?_⟩
  · unfold chunk_document
    by_cases h : (pySplitWords text).length ≤ cs
    · simp only [h, if_true, List.length_cons, List.length_nil]
      omega
    · simp only [h, if_false]
      exact chunkLoop_length_le chunkIdOf (pySplitWords text) cs os m m 0 0
  · intro h
    unfold chunk_document
    simp [h]
  · intro h
    constructor
    · unfold chunk_document
      have h2 : ¬ (pySplitWords text).length ≤ cs := by omega
      simp only [h2, if_false]
      exact chunkLoop_content_eq chunkIdOf (pySplitWords text) cs os m m 0 0
    · exact chunkMains_join (pySplitWords text) cs m 0

/-- C7 witness: the amended statement instantiated at chunk size 1, overlap
1, cap 2 and the text "a b c". -/
theorem chunk_coverage_amended_witness :
    (1 : Nat) ≤ 2 ∧
    ((chunk_document (fun _ => "") 1 1 "a b c" 2).length ≤ 2 ∧
    ((pySplitWords "a b c").length ≤ 1 →
      (chunk_document (fun _ => "") 1 1 "a b c" 2).map (fun c => c.content) = ["a b c"]) ∧
    (1 < (pySplitWords "a b c").length →
      ((chunk_document (fun _ => "") 1 1 "a b c" 2).map (fun c => c.content) =
        List.zipWith (fun ov main => pyJoin " " (ov ++ main))
          (chunkOvs (pySplitWords "a b c") 1 1 0 2) (chunkMains (pySplitWords "a b c") 1 0 2)) ∧
      (chunkMains (pySplitWords "a b c") 1 0 2).flatten =
        (pySplitWords "a b c").take (2 * 1))) :=
  ⟨by decide, chunk_coverage_amended (fun _ => "") 1 1 2 "a b c" (by decide)⟩

/-- C9 counterexample: for intro_to_machine_learning.pdf with empty
extracted text, process_document emits confidence_score 0.5 (the fallback
analysis hard-codes 0.5), not the claimed 0, whatever the generation
oracles are. -/
theorem fallback_scenario_counterexample :
    pyGet (process_document (fun _ _ => []) (fun _ => "") ""
      "documents/intro_to_machine_learning.pdf" "intro_to_machine_learning.pdf" "" 0)
      "confidence_score" = some (.num (mkRat 1 2)) ∧ mkRat 1 2 ≠ (0 : Rat) := by
  refine ⟨by decide, by decide⟩

/-- C9 amended: for a file named intro_to_machine_learning.pdf whose
extracted text is empty, and independently of the generation service (never
consulted on this path), the emitted record has title
"intro to machine learning", category "Machine Learning", difficulty
"Intermediate" (the fallback dict has no difficulty key, so the doc_info
default applies), keywords containing "Machine Learning", and confidence
score 0.5 rather than 0. -/
theorem fallback_scenario_amended (nonEmptyAnalyzer : String → String → PyDict)
    (idOf : String → String) (path mtimeIso : String) (size : Nat) :
    pyGet (process_document nonEmptyAnalyzer idOf ""
        path "intro_to_machine_learning.pdf" mtimeIso size) "title" =
      some (.str "intro to machine learning") ∧
    pyGet (process_document nonEmptyAnalyzer idOf ""
        path "intro_to_machine_learning.pdf" mtimeIso size) "category" =
      some (.str "Machine Learning") ∧
    pyGet (process_document nonEmptyAnalyzer idOf ""
        path "intro_to_machine_learning.pdf" mtimeIso size) "difficulty" =
      some (.str "Intermediate") ∧
    pyGet (process_document nonEmptyAnalyzer idOf ""
        path "intro_to_machine_learning.pdf" mtimeIso size) "keywords" =
      some (.list [.str "Machine Learning"]) ∧
    PyVal.str "Machine Learning" ∈ [PyVal.str "Machine Learning"] ∧
    pyGet (process_document nonEmptyAnalyzer idOf ""
        path "intro_to_machine_learning.pdf" mtimeIso size) "confidence_score" =
      some (.num (mkRat 1 2)) := by
  refine ⟨?_, ?_, ?_, ?_, by decide, ?_⟩ <;> rfl


/-- The keywords block never touches the basic_info fields or the score. -/
theorem applyKeywordsPass_frame (r : AnalysisResult) (o : Option PyVal)
    (r2 : AnalysisResult) (h : applyKeywordsPass r o = .ok r2) :
    r2.title = r.title ∧ r2.authors = r.authors ∧ r2.summary = r.summary ∧
    r2.category = r.category := by
  match o with
  | none =>
      simp only [applyKeywordsPass, pure, Except.pure] at h
      injection h with h2
      subst h2
      exact ⟨rfl, rfl, rfl, rfl⟩
  | some ki =>
      simp only [applyKeywordsPass] at h
      split at h
      · match ki with
        | .dict m =>
            simp only [pyValGetD, bind, Except.bind, pure, Except.pure] at h
            injection h with h2
            subst h2
            exact ⟨rfl, rfl, rfl, rfl⟩
        | .str s => simp [pyValGetD, bind, Except.bind] at h
        | .num q => simp [pyValGetD, bind, Except.bind] at h
        | .pybool b => simp [pyValGetD, bind, Except.bind] at h
        | .null => simp [pyValGetD, bind, Except.bind] at h
        | .list l => simp [pyValGetD, bind, Except.bind] at h
      · simp only [pure, Except.pure] at h
        injection h with h2
        subst h2
        exact ⟨rfl, rfl, rfl, rfl⟩

/-- The technical and business blocks never touch the basic_info fields. -/
theorem applyTechnicalPass_frame (r : AnalysisResult) (o : Option PyVal) :
    (applyTechnicalPass r o).title = r.title ∧
    (applyTechnicalPass r o).authors = r.authors ∧
    (applyTechnicalPass r o).summary = r.summary ∧
    (applyTechnicalPass r o).category = r.category := by
  match o with
  | none => exact ⟨rfl, rfl, rfl, rfl⟩
  | some ti =>
      simp only [applyTechnicalPass]
      split <;> exact ⟨rfl, rfl, rfl, rfl⟩

theorem applyBusinessPass_frame (r : AnalysisResult) (o : Option PyVal) :
    (applyBusinessPass r o).title = r.title ∧
    (applyBusinessPass r o).authors = r.authors ∧
    (applyBusinessPass r o).summary = r.summary ∧
    (applyBusinessPass r o).category = r.category := by
  match o with
  | none => exact ⟨rfl, rfl, rfl, rfl⟩
  | some bi =>
      simp only [applyBusinessPass]
      split <;> exact ⟨rfl, rfl, rfl, rfl⟩

/-- C10: when the first service call for the basic_info pass succeeds but
strips to an empty text, generate_response returns the empty string at once
(the result is fixed by attempt 0 alone, so the retries are untouched),
_analyze_pass maps it to None, the pass sets none of its fields, and the
chunk confidence counts it as a failed pass over the fixed denominator 4. -/
theorem empty_response_counts_as_failed_pass
    (svc : String → Nat → Option String) (promptOf : String → String → String)
    (chunk : DocumentChunk) (s : String)
    (h0 : svc (promptOf "basic_info" (pyTake chunk.content 1500)) 0 = some s)
    (hs : pyStrip s = "") :
    generate_response svc (promptOf "basic_info" (pyTake chunk.content 1500)) 3 = some "" ∧
    analyze_pass svc promptOf chunk.content "basic_info" = none ∧
    ∀ r, analyze_chunk svc promptOf chunk = .ok r →
      r.title = .str "" ∧ r.authors = .null ∧ r.summary = .str "" ∧ r.category = .str "" ∧
      r.confidence_score =
        (((pyTruthyOpt (analyze_pass svc promptOf chunk.content "keywords")).toNat +
          (pyTruthyOpt (analyze_pass svc promptOf chunk.content "technical")).toNat +
          (pyTruthyOpt (analyze_pass svc promptOf chunk.content "business")).toNat : Nat) : Rat) / 4 := by
  have hgen : generate_response svc (promptOf "basic_info" (pyTake chunk.content 1500)) 3 =
      some "" := by
    unfold generate_response genLoop
    rw [h0]
    simp [hs]
  have hpass : analyze_pass svc promptOf chunk.content "basic_info" = none := by
    show (match generate_response svc (promptOf "basic_info" (pyTake chunk.content 1500)) 3 with
      | none => none
      | some r => if r = "" then none else fixed_extract_json r) = none
    rw [hgen]
    simp
  refine ⟨hgen, hpass, ?_⟩
  intro r hr
  unfold analyze_chunk at hr
  rw [hpass] at hr
  simp only [applyBasicPass, pure, bind, Except.pure, Except.bind] at hr
  rcases hk : applyKeywordsPass {} (analyze_pass svc promptOf chunk.content "keywords")
    with e | r1
  · rw [hk] at hr
    exact absurd hr (by simp)
  · rw [hk] at hr
    injection hr with hr2
    subst hr2
    have hf1 := applyKeywordsPass_frame {} _ r1 hk
    have hf2 := applyTechnicalPass_frame r1 (analyze_pass svc promptOf chunk.content "technical")
    have hf3 := applyBusinessPass_frame
      (applyTechnicalPass r1 (analyze_pass svc promptOf chunk.content "technical"))
      (analyze_pass svc promptOf chunk.content "business")
    refine ⟨?_, ?_, ?_, ?_, ?_⟩
    · simp only [hf3.1, hf2.1, hf1.1]
    · simp only [hf3.2.1, hf2.2.1, hf1.2.1]
    · simp only [hf3.2.2.1, hf2.2.2.1, hf1.2.2.1]
    · simp only [hf3.2.2.2, hf2.2.2.2, hf1.2.2.2]
    · simp [hpass, pyTruthyOpt]

/-- C10 witness: a service that always returns an empty response,
instantiated on the default chunk; every pass fails and the confidence is
0 over 4. -/
theorem empty_response_witness :
    generate_response (fun _ _ => some "") ((fun _ _ => "") "basic_info"
      (pyTake "" 1500)) 3 = some "" ∧
    analyze_pass (fun _ _ => some "") (fun _ _ => "") "" "basic_info" = none :=
  have h := empty_response_counts_as_failed_pass (fun _ _ => some "") (fun _ _ => "")
    { content := "", page_start := 1, page_end := 1, chunk_id := "" } "" rfl (by decide)
  ⟨h.1, h.2.1⟩

/-- C6 counterexample: on a response that is a JSON object with a trailing
comma and a seven-element keywords array, the cascade in the claimed order
(auto-repairs before regex extraction) repairs and returns the full object
with seven keywords, while parse_ollama_response tries regex extraction
first and returns a three-field record with the keywords truncated to five:
the strategies are applied in a different order than claimed. -/
theorem parser_order_counterexample :
    parse_ollama_response
      "\x7b\"title\": \"T\", \"summary\": \"S\", \"keywords\": [\"a\",\"b\",\"c\",\"d\",\"e\",\"f\",\"g\"],\x7d" =
      some (PyVal.dict [("title", .str "T"), ("summary", .str "S"),
        ("keywords", .list [.str "a", .str "b", .str "c", .str "d", .str "e"])]) ∧
    parse_spec_order
      "\x7b\"title\": \"T\", \"summary\": \"S\", \"keywords\": [\"a\",\"b\",\"c\",\"d\",\"e\",\"f\",\"g\"],\x7d" =
      some (PyVal.dict [("title", .str "T"), ("summary", .str "S"),
        ("keywords", .list [.str "a", .str "b", .str "c", .str "d", .str "e",
          .str "f", .str "g"])]) ∧
    parse_ollama_response
      "\x7b\"title\": \"T\", \"summary\": \"S\", \"keywords\": [\"a\",\"b\",\"c\",\"d\",\"e\",\"f\",\"g\"],\x7d" ≠
    parse_spec_order
      "\x7b\"title\": \"T\", \"summary\": \"S\", \"keywords\": [\"a\",\"b\",\"c\",\"d\",\"e\",\"f\",\"g\"],\x7d" := by
  refine ⟨by decide, by decide, by decide⟩

/-- Helper for the cascade equality: returning a value from an if-branch
commutes with the first-success chaining. -/
theorem if_some_match (p : Prop) [Decidable p] (v : PyVal) (b : Option PyVal) :
    (if p then some v else b) =
      (match (if p then some v else none) with
       | some w => some w
       | none => match b with | some w => some w | none => none) := by
  by_cases hp : p
  · simp [hp]
  · simp only [hp, if_false]
    cases b <;> simp

/-- C6 amended: parse_ollama_response applies its strategies in the order
direct parse (accepted only for an object with more than two fields),
thinking/markup strip with block extraction and brace substring, regex
field extraction (accepted with at least three recovered fields), and only
then the auto-repairs; it returns the first success and none when all fail
(and on empty input). -/
theorem parser_order_amended (r : String) :
    parse_ollama_response r = parse_amended_order r := by
  unfold parse_ollama_response parse_amended_order
  by_cases hr : r = ""
  · simp [hr]
  · simp only [hr, if_false, firstSuccess]
    unfold codeStratDirect codeStratExtract specStratRegex codeStratRepair
    rcases h1 : jsonLoads (pyStrip r) with _ | v
    · simp only []
      rcases h2 : extract_json_from_response r with _ | js
      · simp only []
        exact if_some_match _ _ _
      · rcases h4 : jsonLoads js with _ | w
        · simp only [Option.bind, h4]
          exact if_some_match _ _ _
        · simp only [Option.bind, h4]
    · match v with
      | .dict d =>
          simp only []
          by_cases hd : 2 < d.length
          · simp only [hd, if_true]
          · simp only [hd, if_false]
            rcases h2 : extract_json_from_response r with _ | js
            · simp only []
              exact if_some_match _ _ _
            · rcases h4 : jsonLoads js with _ | w
              · simp only [Option.bind, h4]
                exact if_some_match _ _ _
              · simp only [Option.bind, h4]
      | .str s =>
          simp only []
          rcases h2 : extract_json_from_response r with _ | js
          · simp only []
            exact if_some_match _ _ _
          · rcases h4 : jsonLoads js with _ | w
            · simp only [Option.bind, h4]
              exact if_some_match _ _ _
            · simp only [Option.bind, h4]
      | .num q =>
          simp only []
          rcases h2 : extract_json_from_response r with _ | js
          · simp only []
            exact if_some_match _ _ _
          · rcases h4 : jsonLoads js with _ | w
            · simp only [Option.bind, h4]
              exact if_some_match _ _ _
            · simp only [Option.bind, h4]
      | .pybool b =>
          simp only []
          rcases h2 : extract_json_from_response r with _ | js
          · simp only []
            exact if_some_match _ _ _
          · rcases h4 : jsonLoads js with _ | w
            · simp only [Option.bind, h4]
              exact if_some_match _ _ _
            · simp only [Option.bind, h4]
      | .null =>
          simp only []
          rcases h2 : extract_json_from_response r with _ | js
          · simp only []
            exact if_some_match _ _ _
          · rcases h4 : jsonLoads js with _ | w
            · simp only [Option.bind, h4]
              exact if_some_match _ _ _
            · simp only [Option.bind, h4]
      | .list l =>
          simp only []
          rcases h2 : extract_json_from_response r with _ | js
          · simp only []
            exact if_some_match _ _ _
          · rcases h4 : jsonLoads js with _ | w
            · simp only [Option.bind, h4]
              exact if_some_match _ _ _
            · simp only [Option.bind, h4]

theorem pySet_all (p : String × PyVal → Bool) (d : PyDict) (k : String) (v : PyVal)
    (hd : d.all p = true) (hv : p (k, v) = true) : (pySet d k v).all p = true := by
  induction d with
  | nil => simp [pySet, hv]
  | cons kv0 rest ih =>
      obtain ⟨k0, v0⟩ := kv0
      simp only [List.all_cons, Bool.and_eq_true] at hd
      by_cases h0 : k0 = k
      · subst h0
        have hb : (k0 == k0) = true := by simp
        simp only [pySet, hb, if_true, List.all_cons, Bool.and_eq_true]
        exact ⟨hv, hd.2⟩
      · have hb : (k0 == k) = false := by simp [h0]
        simp only [pySet, hb, Bool.false_eq_true, if_false, List.all_cons,
          Bool.and_eq_true]
        exact ⟨hd.1, ih hd.2⟩

theorem pyGet_all_val (q : PyVal → Bool) (d : PyDict) (k : String) (v : PyVal)
    (hd : d.all (fun kv => q kv.2) = true) (hg : pyGet d k = some v) :
    q v = true := by
  unfold pyGet at hg
  cases hf : d.find? (fun kv => kv.1 == k) with
  | none => rw [hf] at hg; cases hg
  | some kv =>
      rw [hf] at hg
      have hmem := List.mem_of_find?_eq_some hf
      have hq := List.all_eq_true.mp hd kv hmem
      simp only [Option.map_some'] at hg
      injection hg with hg2
      rw [← hg2]
      simpa using hq

theorem mergeDictInto_hash :
    ∀ m : PyDict, m.all (fun kv =>
        match kv.2 with
        | .list l => l.all pyHashable
        | v => pyHashable v) = true →
      ∀ acc : PyDict, acc.all entryHashList = true →
      (mergeDictInto acc m).all entryHashList = true := by
  intro m
  induction m with
  | nil =>
      intro _ acc h
      simpa [mergeDictInto] using h
  | cons kv rest ih =>
      intro hm acc hacc
      obtain ⟨k, v⟩ := kv
      simp only [List.all_cons, Bool.and_eq_true] at hm
      unfold mergeDictInto
      rw [List.foldl_cons]
      have hcur : (match pyGet acc k with
          | some (PyVal.list l) => l
          | _ => []).all pyHashable = true := by
        cases hg : pyGet acc k with
        | none => rfl
        | some w =>
            cases w with
            | list l =>
                have hq := pyGet_all_val valHashList acc k (PyVal.list l) hacc hg
                simpa [valHashList] using hq
            | str s => rfl
            | num q => rfl
            | pybool b => rfl
            | null => rfl
            | dict dd => rfl
      have hstep : ∀ w : PyVal, (match w with
          | PyVal.list l => l.all pyHashable
          | w => pyHashable w) = true →
          ((match w with
            | PyVal.list l => pySet acc k (.list ((match pyGet acc k with
                | some (PyVal.list l0) => l0
                | _ => []) ++ l))
            | w => pySet acc k (.list ((match pyGet acc k with
                | some (PyVal.list l0) => l0
                | _ => []) ++ [w]))) : PyDict).all entryHashList = true := by
        intro w hw
        cases w with
        | list l =>
            refine pySet_all entryHashList acc k _ hacc ?_
            simp only [entryHashList, valHashList, List.all_append]
            simp only [] at hw
            simp [hcur, hw]
        | str s =>
            refine pySet_all entryHashList acc k _ hacc ?_
            simp only [entryHashList, valHashList, List.all_append]
            simp [hcur, pyHashable]
        | num q =>
            refine pySet_all entryHashList acc k _ hacc ?_
            simp only [entryHashList, valHashList, List.all_append]
            simp [hcur, pyHashable]
        | pybool b =>
            refine pySet_all entryHashList acc k _ hacc ?_
            simp only [entryHashList, valHashList, List.all_append]
            simp [hcur, pyHashable]
        | null =>
            refine pySet_all entryHashList acc k _ hacc ?_
            simp only [entryHashList, valHashList, List.all_append]
            simp [hcur, pyHashable]
        | dict dd =>
            simp only [] at hw
            cases hw
      exact ih hm.2 _ (hstep v hm.1)

theorem pyDedupE_ok (l : List PyVal) (h : l.all pyHashable = true) :
    pyDedupE l = .ok (pyDedup l) := by
  simp [pyDedupE, h]

theorem dedupDictVals_ok : ∀ m : List (String × PyVal),
    m.all entryHashList = true →
    dedupDictVals m = .ok (m.map (fun kv =>
      match kv.2 with
      | .list l => (kv.1, PyVal.list ((pyDedup l).take 5))
      | v => (kv.1, v))) := by
  intro m
  induction m with
  | nil => intro _; rfl
  | cons kv rest ih =>
      intro h
      obtain ⟨k, v⟩ := kv
      simp only [List.all_cons, Bool.and_eq_true] at h
      obtain ⟨hv, hrest⟩ := h
      cases v with
      | list l =>
          have hl : l.all pyHashable = true := by
            simpa [entryHashList, valHashList] using hv
          simp [dedupDictVals, pyDedupE_ok l hl, ih hrest, bind, Except.bind,
            pure, Except.pure]
      | str s => simp [entryHashList, valHashList] at hv
      | num q => simp [entryHashList, valHashList] at hv
      | pybool b => simp [entryHashList, valHashList] at hv
      | null => simp [entryHashList, valHashList] at hv
      | dict dd => simp [entryHashList, valHashList] at hv

theorem aggStep_ok (acc : List PyVal × List PyVal × PyDict × PyDict)
    (r : AnalysisResult) (h : wfResult r = true) :
    ∃ acc2, aggStep acc r = .ok acc2 := by
  obtain ⟨kl, hk⟩ : ∃ l, r.keywords = .list l := by
    unfold wfResult at h
    rcases h2 : r.keywords <;> simp_all
  obtain ⟨cl, hc⟩ : ∃ l, r.key_concepts = .list l := by
    unfold wfResult at h
    rcases h2 : r.key_concepts <;> simp_all
  obtain ⟨tm, ht⟩ : ∃ m, r.technical_details = .dict m := by
    unfold wfResult at h
    rcases h2 : r.technical_details <;> simp_all
  obtain ⟨bm, hb⟩ : ∃ m, r.business_context = .dict m := by
    unfold wfResult at h
    rcases h2 : r.business_context <;> simp_all
  refine ⟨?_, ?_⟩
  · exact (acc.1 ++ kl, acc.2.1 ++ cl, mergeDictInto acc.2.2.1 tm, mergeDictInto acc.2.2.2 bm)
  · obtain ⟨a1, a2, a3, a4⟩ := acc
    simp [aggStep, hk, hc, ht, hb, pyExtendIter, bind, Except.bind, pure, Except.pure]

theorem aggFold_ok (rs : List AnalysisResult) (h : ∀ r ∈ rs, wfResult r = true) :
    ∀ acc, ∃ t, rs.foldlM aggStep acc = .ok t := by
  induction rs with
  | nil => intro acc; exact ⟨acc, rfl⟩
  | cons r rest ih =>
      intro acc
      obtain ⟨acc2, hstep⟩ := aggStep_ok acc r (h r (by simp))
      obtain ⟨t, hrest⟩ := ih (fun r2 hr2 => h r2 (by simp [hr2])) acc2
      exact ⟨t, by simp [List.foldlM_cons, hstep, hrest, bind, Except.bind]⟩

theorem aggStep_ok_hash (acc : List PyVal × List PyVal × PyDict × PyDict)
    (r : AnalysisResult) (hwf : wfResult r = true) (hh : hashableResult r = true)
    (hacc : accHashable acc = true) :
    ∃ acc2, aggStep acc r = .ok acc2 ∧ accHashable acc2 = true := by
  obtain ⟨kl, hk⟩ : ∃ l, r.keywords = .list l := by
    unfold wfResult at hwf
    rcases h2 : r.keywords <;> simp_all
  obtain ⟨cl, hc⟩ : ∃ l, r.key_concepts = .list l := by
    unfold wfResult at hwf
    rcases h2 : r.key_concepts <;> simp_all
  obtain ⟨tm, ht⟩ : ∃ m, r.technical_details = .dict m := by
    unfold wfResult at hwf
    rcases h2 : r.technical_details <;> simp_all
  obtain ⟨bm, hb⟩ : ∃ m, r.business_context = .dict m := by
    unfold wfResult at hwf
    rcases h2 : r.business_context <;> simp_all
  obtain ⟨a1, a2, a3, a4⟩ := acc
  unfold accHashable at hacc
  simp only [Bool.and_eq_true] at hacc
  obtain ⟨⟨⟨h1, h2⟩, h3⟩, h4⟩ := hacc
  unfold hashableResult at hh
  rw [hk, hc, ht, hb] at hh
  simp only [Bool.and_eq_true] at hh
  obtain ⟨⟨⟨hh1, hh2⟩, hh3⟩, hh4⟩ := hh
  refine ⟨(a1 ++ kl, a2 ++ cl, mergeDictInto a3 tm, mergeDictInto a4 bm), ?_, ?_⟩
  · simp [aggStep, hk, hc, ht, hb, pyExtendIter, bind, Except.bind, pure, Except.pure]
  · unfold accHashable
    simp only [Bool.and_eq_true]
    refine ⟨⟨⟨?_, ?_⟩, ?_⟩, ?_⟩
    · simp only [List.all_append]
      simp [h1, hh1]
    · simp only [List.all_append]
      simp [h2, hh2]
    · exact mergeDictInto_hash tm hh3 a3 h3
    · exact mergeDictInto_hash bm hh4 a4 h4

theorem aggFold_ok_hash (rs : List AnalysisResult)
    (hwf : ∀ r ∈ rs, wfResult r = true)
    (hh : ∀ r ∈ rs, hashableResult r = true) :
    ∀ acc, accHashable acc = true →
      ∃ t, rs.foldlM aggStep acc = .ok t ∧ accHashable t = true := by
  induction rs with
  | nil => intro acc hacc; exact ⟨acc, rfl, hacc⟩
  | cons r rest ih =>
      intro acc hacc
      obtain ⟨acc2, hstep, hacc2⟩ := aggStep_ok_hash acc r (hwf r (by simp))
        (hh r (by simp)) hacc
      obtain ⟨t, hrest, hht⟩ := ih (fun r2 hr2 => hwf r2 (by simp [hr2]))
        (fun r2 hr2 => hh r2 (by simp [hr2])) acc2 hacc2
      exact ⟨t, by simp [List.foldlM_cons, hstep, hrest, bind, Except.bind], hht⟩

theorem maxByConfidence_spec (xs : List AnalysisResult) : ∀ (x : AnalysisResult),
    ∃ i, (x :: xs)[i]? = some (maxByConfidence x xs) ∧
      (∀ (j : Nat) (b : AnalysisResult), (x :: xs)[j]? = some b →
        b.confidence_score ≤ (maxByConfidence x xs).confidence_score) ∧
      (∀ (j : Nat) (b : AnalysisResult), j < i → (x :: xs)[j]? = some b →
        b.confidence_score < (maxByConfidence x xs).confidence_score) := by
  induction xs with
  | nil =>
      intro x
      refine ⟨0, rfl, ?_, ?_⟩
      · intro j b hj
        match j, hj with
        | 0, hj =>
            injection hj with h
            subst h
            exact le_refl _
        | n + 1, hj => simp at hj
      · intro j b hj
        omega
  | cons r rest ih =>
      intro x
      have hfold : maxByConfidence x (r :: rest) =
          maxByConfidence (if r.confidence_score > x.confidence_score then r else x) rest :=
        rfl
      by_cases hcmp : r.confidence_score > x.confidence_score
      · obtain ⟨i, hi, hle, hlt⟩ := ih r
        rw [hfold, if_pos hcmp]
        refine ⟨i + 1, by simpa [List.getElem?_cons_succ] using hi, ?_, ?_⟩
        · intro j b hj
          match j, hj with
          | 0, hj =>
              rw [List.getElem?_cons_zero] at hj
              injection hj with h
              subst h
              have hr := hle 0 r (by simp)
              exact le_of_lt (lt_of_lt_of_le hcmp hr)
          | j + 1, hj => exact hle j b (by simpa using hj)
        · intro j b hjlt hj
          match j, hj with
          | 0, hj =>
              rw [List.getElem?_cons_zero] at hj
              injection hj with h
              subst h
              have hr := hle 0 r (by simp)
              exact lt_of_lt_of_le hcmp hr
          | j + 1, hj => exact hlt j b (by omega) (by simpa using hj)
      · obtain ⟨i, hi, hle, hlt⟩ := ih x
        rw [hfold, if_neg hcmp]
        have hrx : r.confidence_score ≤ x.confidence_score := not_lt.mp hcmp
        have hxle := hle 0 x (by simp)
        cases i with
        | zero =>
            refine ⟨0, by simpa using hi, ?_, ?_⟩
            · intro j b hj
              match j, hj with
              | 0, hj =>
                  rw [List.getElem?_cons_zero] at hj
                  injection hj with h
                  subst h
                  exact hxle
              | 1, hj =>
                  rw [List.getElem?_cons_succ, List.getElem?_cons_zero] at hj
                  injection hj with h
                  subst h
                  exact le_trans hrx hxle
              | j + 2, hj => exact hle (j + 1) b (by simpa using hj)
            · intro j b hjlt hj
              omega
        | succ i0 =>
            have hx0 := hlt 0 x (by omega) (by simp)
            refine ⟨i0 + 2, by simpa [List.getElem?_cons_succ] using hi, ?_, ?_⟩
            · intro j b hj
              match j, hj with
              | 0, hj =>
                  rw [List.getElem?_cons_zero] at hj
                  injection hj with h
                  subst h
                  exact hxle
              | 1, hj =>
                  rw [List.getElem?_cons_succ, List.getElem?_cons_zero] at hj
                  injection hj with h
                  subst h
                  exact le_trans hrx hxle
              | j + 2, hj => exact hle (j + 1) b (by simpa using hj)
            · intro j b hjlt hj
              match j, hj with
              | 0, hj =>
                  rw [List.getElem?_cons_zero] at hj
                  injection hj with h
                  subst h
                  exact hx0
              | 1, hj =>
                  rw [List.getElem?_cons_succ, List.getElem?_cons_zero] at hj
                  injection hj with h
                  subst h
                  exact lt_of_le_of_lt hrx hx0
              | j + 2, hj => exact hlt (j + 1) b (by omega) (by simpa using hj)

/-- C8: scalar aggregation takes title, authors, summary and category from
the highest-confidence chunk result, ties broken by the earliest index.
Hypotheses: the chunk results are well-typed per the dataclass and feed
only hashable values to the dict.fromkeys deduplications, without which
the Python loop raises before returning. -/
theorem scalar_aggregation_from_best (x : AnalysisResult) (xs : List AnalysisResult)
    (h : ∀ r ∈ x :: xs, wfResult r = true)
    (hh : ∀ r ∈ x :: xs, hashableResult r = true) :
    ∃ out, aggregate_results (x :: xs) = .ok out ∧
      pyGet out "title" = some (maxByConfidence x xs).title ∧
      pyGet out "authors" = some (pyOr (maxByConfidence x xs).authors (.list [])) ∧
      pyGet out "summary" = some (maxByConfidence x xs).summary ∧
      pyGet out "category" = some (maxByConfidence x xs).category ∧
      ∃ i, (x :: xs)[i]? = some (maxByConfidence x xs) ∧
        (∀ (j : Nat) (b : AnalysisResult), (x :: xs)[j]? = some b →
          b.confidence_score ≤ (maxByConfidence x xs).confidence_score) ∧
        (∀ (j : Nat) (b : AnalysisResult), j < i → (x :: xs)[j]? = some b →
          b.confidence_score < (maxByConfidence x xs).confidence_score) := by
  obtain ⟨t, ht, hht⟩ := aggFold_ok_hash (x :: xs) h hh ([], [], [], []) (by decide)
  obtain ⟨t1, t2, t3, t4⟩ := t
  unfold accHashable at hht
  simp only [Bool.and_eq_true] at hht
  obtain ⟨⟨⟨ht1, ht2⟩, ht3⟩, ht4⟩ := hht
  refine ⟨[("title", (maxByConfidence x xs).title),
     ("authors", pyOr (maxByConfidence x xs).authors (.list [])),
     ("summary", (maxByConfidence x xs).summary),
     ("category", (maxByConfidence x xs).category),
     ("keywords", .list ((pyDedup t1).take 10)),
     ("key_concepts", .list ((pyDedup t2).take 10)),
     ("technical_details", .dict (match complexityLevels (x :: xs) with
        | [] => t3.map (fun kv => match kv.2 with
            | .list l => (kv.1, PyVal.list ((pyDedup l).take 5))
            | v => (kv.1, v))
        | c :: cs => pySet (t3.map (fun kv => match kv.2 with
            | .list l => (kv.1, PyVal.list ((pyDedup l).take 5))
            | v => (kv.1, v))) "complexity_level" (.str (modeFirst c cs)))),
     ("business_context", .dict (t4.map (fun kv => match kv.2 with
        | .list l => (kv.1, PyVal.list ((pyDedup l).take 5))
        | v => (kv.1, v)))),
     ("confidence_score", .num ((((x :: xs).map (fun r => r.confidence_score)).sum) /
        (((x :: xs).length : Nat) : Rat)))],
    ?_, rfl, rfl, rfl, rfl, maxByConfidence_spec xs x⟩
  unfold aggregate_results
  simp only [ht, pyDedupE_ok t1 ht1, pyDedupE_ok t2 ht2, dedupDictVals_ok t3 ht3,
    dedupDictVals_ok t4 ht4, bind, Except.bind, pure, Except.pure]

/-- The dedup raise path is live: a chunk result whose keywords hold a list
(unhashable) is well-typed per the dataclass yet makes aggregate_results
raise TypeError in dict.fromkeys, which is why the aggregation theorem
assumes hashable values. -/
theorem aggregate_results_unhashable_example :
    wfResult { keywords := PyVal.list [PyVal.list []] } = true ∧
    hashableResult { keywords := PyVal.list [PyVal.list []] } = false ∧
    aggregate_results [{ keywords := PyVal.list [PyVal.list []] }] =
      .error "TypeError: unhashable type" := by
  refine ⟨rfl, rfl, rfl⟩

/-- C8 witness: the aggregation theorem applied to two default (well-typed,
hashable-valued) chunk results with tied confidence scores. -/
theorem scalar_aggregation_from_best_witness :
    ∃ out, aggregate_results [({} : AnalysisResult), {}] = .ok out ∧
      pyGet out "title" = some (maxByConfidence ({} : AnalysisResult) [{}]).title ∧
      pyGet out "authors" =
        some (pyOr (maxByConfidence ({} : AnalysisResult) [{}]).authors (.list [])) ∧
      pyGet out "summary" = some (maxByConfidence ({} : AnalysisResult) [{}]).summary ∧
      pyGet out "category" = some (maxByConfidence ({} : AnalysisResult) [{}]).category ∧
      ∃ i, ([({} : AnalysisResult), {}])[i]? = some (maxByConfidence ({} : AnalysisResult) [{}]) ∧
        (∀ (j : Nat) (b : AnalysisResult), ([({} : AnalysisResult), {}])[j]? = some b →
          b.confidence_score ≤ (maxByConfidence ({} : AnalysisResult) [{}]).confidence_score) ∧
        (∀ (j : Nat) (b : AnalysisResult), j < i → ([({} : AnalysisResult), {}])[j]? = some b →
          b.confidence_score < (maxByConfidence ({} : AnalysisResult) [{}]).confidence_score) :=
  scalar_aggregation_from_best {} [{}] (by decide) (by decide)

theorem pyGet_pySet_same (d : PyDict) (k : String) (v : PyVal) :
    pyGet (pySet d k v) k = some v := by
  induction d with
  | nil => simp [pySet, pyGet, List.find?]
  | cons kv rest ih =>
      obtain ⟨k0, v0⟩ := kv
      by_cases h : k0 = k
      · simp [pySet, pyGet, List.find?, h]
      · simp only [pySet, h, if_false]
        have hbeq : (k0 == k) = false := by simp [h]
        simp only [pyGet, List.find?, hbeq] at ih ⊢
        exact ih

theorem pyGet_pySet_other (d : PyDict) (k k2 : String) (v : PyVal) (h : k2 ≠ k) :
    pyGet (pySet d k v) k2 = pyGet d k2 := by
  induction d with
  | nil =>
      have hbeq : (k == k2) = false := by simp [Ne.symm h]
      simp [pySet, pyGet, List.find?, hbeq]
  | cons kv rest ih =>
      obtain ⟨k0, v0⟩ := kv
      by_cases h0 : k0 = k
      · subst h0
        have hbeq : (k0 == k2) = false := by simp [Ne.symm h]
        simp [pySet, pyGet, List.find?, hbeq]
      · have hb0 : (k0 == k) = false := by simp [h0]
        simp only [pySet, hb0, Bool.false_eq_true, if_false]
        by_cases h2 : k0 = k2
        · subst h2
          simp [pyGet, List.find?]
        · have hbeq : (k0 == k2) = false := by simp [h2]
          simp only [pyGet, List.find?, hbeq] at ih ⊢
          exact ih

theorem replaceAux_length_le (o : Char) (os new : List Char)
    (h : new.length ≤ os.length + 1) :
    ∀ fuel l, (replaceAux o os new fuel l).length ≤ l.length := by
  intro fuel
  induction fuel with
  | zero => intro l; cases l <;> simp [replaceAux]
  | succ n ih =>
      intro l
      cases l with
      | nil => simp [replaceAux]
      | cons c cs =>
          simp only [replaceAux]
          by_cases hp : (o :: os).isPrefixOf (c :: cs)
          · simp only [hp, if_true, List.length_append, List.length_cons]
            have h1 := ih (cs.drop os.length)
            have h2 : (cs.drop os.length).length = cs.length - os.length := by
              simp
            have h3 : os.length ≤ cs.length := by
              have := List.IsPrefix.length_le (List.isPrefixOf_iff_prefix.mp hp)
              simp at this
              omega
            omega
          · simp only [hp, Bool.false_eq_true, if_false, List.length_cons]
            have := ih cs
            omega

theorem pyReplace_length_le (s old new : String)
    (h : new.data.length ≤ old.data.length) :
    (pyReplace s old new).data.length ≤ s.data.length := by
  unfold pyReplace
  match hd : old.data with
  | [] => simp
  | o :: os =>
      rw [hd] at h
      simp only [List.length_cons] at h
      exact replaceAux_length_le o os new.data (by omega) s.data.length s.data

theorem cleanTitleOf_length (fn : String) :
    (cleanTitleOf fn).data.length ≤ fn.data.length := by
  unfold cleanTitleOf
  have h1 := pyReplace_length_le fn ".pdf" "" (by decide)
  have h2 := pyReplace_length_le (pyReplace fn ".pdf" "") "_" " " (by decide)
  have h3 := pyReplace_length_le (pyReplace (pyReplace fn ".pdf" "") "_" " ") "-" " "
    (by decide)
  omega

theorem pyLower_length (s : String) : (pyLower s).data.length = s.data.length := by
  simp [pyLower]

theorem inferCategoryValidate_mem (fn : String) :
    inferCategoryValidate fn ∈ valid_categories := by
  unfold inferCategoryValidate
  simp only [valid_categories]
  split_ifs <;> simp

theorem valid_category_length (c : String) (h : c ∈ valid_categories) :
    c.data.length ≤ 16 := by
  simp only [valid_categories, List.mem_cons, List.mem_singleton] at h
  rcases h with rfl | rfl | rfl | rfl | rfl | rfl | rfl | h <;> first | decide | simp_all

theorem difficultyValid_elim (o : Option PyVal) (h : difficultyValid o = true) :
    ∃ c, o = some (PyVal.str c) ∧ c ∈ valid_difficulties := by
  cases o with
  | none => simp [difficultyValid] at h
  | some v =>
      cases v with
      | str s =>
          refine ⟨s, rfl, ?_⟩
          simpa [difficultyValid] using h
      | num q => simp [difficultyValid] at h
      | pybool b => simp [difficultyValid] at h
      | null => simp [difficultyValid] at h
      | list l => simp [difficultyValid] at h
      | dict d => simp [difficultyValid] at h

theorem categoryValid_elim (o : Option PyVal) (h : categoryValid o = true) :
    ∃ c, o = some (PyVal.str c) ∧ c ∈ valid_categories := by
  cases o with
  | none => simp [categoryValid] at h
  | some v =>
      cases v with
      | str s =>
          refine ⟨s, rfl, ?_⟩
          simpa [categoryValid] using h
      | num q => simp [categoryValid] at h
      | pybool b => simp [categoryValid] at h
      | null => simp [categoryValid] at h
      | list l => simp [categoryValid] at h
      | dict d => simp [categoryValid] at h

theorem categoryValid_of_mem (c : String) (h : c ∈ valid_categories) :
    categoryValid (some (PyVal.str c)) = true := by
  simpa [categoryValid] using h

theorem difficultyValid_of_mem (c : String) (h : c ∈ valid_difficulties) :
    difficultyValid (some (PyVal.str c)) = true := by
  simpa [difficultyValid] using h

theorem valid_category_mem_length (c : String) (hc : c ∈ valid_categories) :
    c.data.length ≤ 16 := by
  simp [valid_categories] at hc
  rcases hc with rfl | rfl | rfl | rfl | rfl | rfl | rfl <;> decide

theorem pySet_self (d : PyDict) (k : String) (v : PyVal)
    (h : pyGet d k = some v) : pySet d k v = d := by
  induction d with
  | nil => simp [pyGet, List.find?] at h
  | cons kv rest ih =>
      obtain ⟨k0, v0⟩ := kv
      by_cases h0 : k0 = k
      · subst h0
        simp [pyGet, List.find?] at h
        simp [pySet, h]
      · have hb : (k0 == k) = false := by simp [h0]
        have h2 : pyGet rest k = some v := by
          simpa [pyGet, List.find?, hb] using h
        simp [pySet, hb, ih h2]

theorem pySet_pySet (d : PyDict) (k : String) (v v2 : PyVal) :
    pySet (pySet d k v) k v2 = pySet d k v2 := by
  induction d with
  | nil => simp [pySet]
  | cons kv rest ih =>
      obtain ⟨k0, v0⟩ := kv
      by_cases h0 : k0 = k
      · subst h0
        simp [pySet]
      · have hb : (k0 == k) = false := by simp [h0]
        simp [pySet, hb, ih]

theorem pyTake_length (s : String) (n : Nat) :
    (pyTake s n).data.length = min n s.data.length := by
  simp [pyTake]

theorem strData_append (a b : String) : (a ++ b).data = a.data ++ b.data := rfl

theorem vcSynthSummary_length (tl cl : String) :
    (vcSynthSummary tl cl).data.length = 75 + tl.data.length + cl.data.length := by
  have h1 : "This document covers ".data.length = 21 := rfl
  have h2 : " providing comprehensive information and insights on ".data.length = 53 := rfl
  have h3 : ".".data.length = 1 := rfl
  simp only [vcSynthSummary, strData_append, List.length_append, h1, h2, h3]
  omega

theorem vcStrOrFalsy_congr (d d2 : PyDict) (k : String)
    (h : pyGet d2 k = pyGet d k) : vcStrOrFalsy d2 k = vcStrOrFalsy d k := by
  unfold vcStrOrFalsy
  rw [h]

theorem vcTitleStep_ok (d : PyDict) (fn : String) (n : Nat)
    (ht : vcTitleOk d n = true) (hf : fn.data.length ≤ n) :
    ∃ t : String, vcTitleStep d fn = .ok (pySet d "title" (.str t)) ∧
      t.data.length ≤ n := by
  unfold vcTitleOk at ht
  unfold vcTitleStep
  cases hg : pyGet d "title" with
  | none =>
      refine ⟨cleanTitleOf fn, ?_, le_trans (cleanTitleOf_length fn) hf⟩
      simp [hg, pyTruthyOpt]
  | some v =>
      rw [hg] at ht
      cases v with
      | str s =>
          by_cases hs : pyTruthy (.str s) = true
          · by_cases hlen : (pyStrip s).length < 3
            · refine ⟨cleanTitleOf fn, ?_, le_trans (cleanTitleOf_length fn) hf⟩
              simp [hg, pyTruthyOpt, hs, pyValStrip, bind, Except.bind, hlen]
            · refine ⟨s, ?_, by simpa using ht⟩
              rw [pySet_self d "title" (.str s) hg]
              simp [hg, pyTruthyOpt, hs, pyValStrip, bind, Except.bind, hlen]
          · refine ⟨cleanTitleOf fn, ?_, le_trans (cleanTitleOf_length fn) hf⟩
            simp only [Bool.not_eq_true] at hs
            simp [hg, pyTruthyOpt, hs]
      | num q =>
          refine ⟨cleanTitleOf fn, ?_, le_trans (cleanTitleOf_length fn) hf⟩
          simp only [Bool.not_eq_true'] at ht
          simp [hg, pyTruthyOpt, ht]
      | pybool b =>
          refine ⟨cleanTitleOf fn, ?_, le_trans (cleanTitleOf_length fn) hf⟩
          simp only [Bool.not_eq_true'] at ht
          simp [hg, pyTruthyOpt, ht]
      | null =>
          refine ⟨cleanTitleOf fn, ?_, le_trans (cleanTitleOf_length fn) hf⟩
          simp [hg, pyTruthyOpt, pyTruthy]
      | list l =>
          refine ⟨cleanTitleOf fn, ?_, le_trans (cleanTitleOf_length fn) hf⟩
          simp only [Bool.not_eq_true'] at ht
          simp [hg, pyTruthyOpt, ht]
      | dict dd =>
          refine ⟨cleanTitleOf fn, ?_, le_trans (cleanTitleOf_length fn) hf⟩
          simp only [Bool.not_eq_true'] at ht
          simp [hg, pyTruthyOpt, ht]

theorem vcCategoryStep_ok (d : PyDict) (fn : String) :
    ∃ c : String, vcCategoryStep d fn = pySet d "category" (.str c) ∧
      c ∈ valid_categories := by
  unfold vcCategoryStep
  by_cases h : categoryValid (pyGet d "category") = true
  · obtain ⟨c, hc, hmem⟩ := categoryValid_elim _ h
    refine ⟨c, ?_, hmem⟩
    rw [pySet_self d "category" (.str c) hc]
    simp [h]
  · refine ⟨inferCategoryValidate fn, ?_, inferCategoryValidate_mem fn⟩
    simp only [Bool.not_eq_true] at h
    simp [h]

theorem vcDifficultyStep_ok (d : PyDict) :
    ∃ c : String, vcDifficultyStep d = pySet d "difficulty" (.str c) ∧
      c ∈ valid_difficulties := by
  unfold vcDifficultyStep
  by_cases h : difficultyValid (pyGet d "difficulty") = true
  · obtain ⟨c, hc, hmem⟩ := difficultyValid_elim _ h
    refine ⟨c, ?_, hmem⟩
    rw [pySet_self d "difficulty" (.str c) hc]
    simp [h]
  · refine ⟨"Intermediate", ?_, by simp [valid_difficulties]⟩
    simp only [Bool.not_eq_true] at h
    simp [h]

theorem vcKeywordsStep_ok (d : PyDict) (c : PyVal)
    (hc : pyGet d "category" = some c) :
    ∃ kw : List PyVal, vcKeywordsStep d = .ok (pySet d "keywords" (.list kw)) ∧
      1 ≤ kw.length ∧ kw.length ≤ 5 := by
  have hne : "category" ≠ "keywords" := by decide
  have hoth : ∀ (dd : PyDict) (v : PyVal),
      pyGet (pySet dd "keywords" v) "category" = pyGet dd "category" :=
    fun dd v => pyGet_pySet_other dd "keywords" "category" v hne
  unfold vcKeywordsStep
  cases hg : pyGet d "keywords" with
  | none =>
      refine ⟨[c, .str "Document"], ?_, by simp, by simp⟩
      simp only [hg, pyGet_pySet_same, List.take_nil, List.isEmpty_nil, if_true,
        pySet_pySet, hoth, hc]
  | some v =>
      cases v with
      | list l =>
          cases l with
          | nil =>
              refine ⟨[c, .str "Document"], ?_, by simp, by simp⟩
              simp only [hg, pyGet_pySet_same, List.take_nil, List.isEmpty_nil,
                if_true, pySet_pySet, hoth, hc]
          | cons x xs =>
              refine ⟨(x :: xs).take 5, ?_, by simp, by
                rw [List.length_take]; exact min_le_left _ _⟩
              simp [hg]
      | str s =>
          refine ⟨[.str s], ?_, by simp, by simp⟩
          simp only [hg, pyGet_pySet_same, List.take_cons, List.take_nil,
            List.isEmpty_cons, if_false, pySet_pySet]
          simp
      | num q =>
          refine ⟨[c, .str "Document"], ?_, by simp, by simp⟩
          simp only [hg, pyGet_pySet_same, List.take_nil, List.isEmpty_nil,
            if_true, pySet_pySet, hoth, hc]
      | pybool b =>
          refine ⟨[c, .str "Document"], ?_, by simp, by simp⟩
          simp only [hg, pyGet_pySet_same, List.take_nil, List.isEmpty_nil,
            if_true, pySet_pySet, hoth, hc]
      | null =>
          refine ⟨[c, .str "Document"], ?_, by simp, by simp⟩
          simp only [hg, pyGet_pySet_same, List.take_nil, List.isEmpty_nil,
            if_true, pySet_pySet, hoth, hc]
      | dict dd =>
          refine ⟨[c, .str "Document"], ?_, by simp, by simp⟩
          simp only [hg, pyGet_pySet_same, List.take_nil, List.isEmpty_nil,
            if_true, pySet_pySet, hoth, hc]

theorem vcAuthorsStep_ok (d : PyDict) :
    ∃ au : List PyVal, vcAuthorsStep d = pySet d "authors" (.list au) := by
  unfold vcAuthorsStep
  cases hg : pyGet d "authors" with
  | none => exact ⟨[], rfl⟩
  | some v =>
      cases v with
      | list l => exact ⟨l, (pySet_self d "authors" (.list l) hg).symm⟩
      | str s =>
          by_cases hs : s = ""
          · exact ⟨[], by simp [hs]⟩
          · exact ⟨[.str s], by simp [hs]⟩
      | num q => exact ⟨[], rfl⟩
      | pybool b => exact ⟨[], rfl⟩
      | null => exact ⟨[], rfl⟩
      | dict dd => exact ⟨[], rfl⟩

theorem vcSummaryStep_ok (d : PyDict) (t c : String)
    (htg : pyGet d "title" = some (.str t))
    (hcg : pyGet d "category" = some (.str c))
    (htl : t.data.length ≤ 200) (hcl : c.data.length ≤ 16)
    (hs : vcStrOrFalsy d "summary" = true) :
    ∃ sm : String, vcSummaryStep d = .ok (pySet d "summary" (.str sm)) ∧
      20 ≤ sm.data.length ∧ sm.data.length ≤ 300 := by
  have hsynth : 20 ≤ (vcSynthSummary (pyLower t) (pyLower c)).data.length ∧
      (vcSynthSummary (pyLower t) (pyLower c)).data.length ≤ 300 := by
    rw [vcSynthSummary_length, pyLower_length, pyLower_length]
    omega
  unfold vcStrOrFalsy at hs
  unfold vcSummaryStep
  cases hg : pyGet d "summary" with
  | none =>
      refine ⟨vcSynthSummary (pyLower t) (pyLower c), ?_, hsynth.1, hsynth.2⟩
      simp [hg, pyTruthyOpt, htg, hcg, pyValLower, bind, Except.bind]
  | some v =>
      rw [hg] at hs
      cases v with
      | str s =>
          have hlen_eq : s.length = s.data.length := rfl
          by_cases hsv : pyTruthy (.str s) = true
          · by_cases h20 : s.length < 20
            · refine ⟨vcSynthSummary (pyLower t) (pyLower c), ?_, hsynth.1, hsynth.2⟩
              simp [hg, pyTruthyOpt, hsv, htg, hcg, pyValLower, pyValLen, bind,
                Except.bind, h20]
            · by_cases h300 : 300 < s.length
              · refine ⟨pyTake s 297 ++ "...", ?_, ?_, ?_⟩
                · simp [hg, pyTruthyOpt, hsv, pyValLen, bind, Except.bind, h20,
                    h300, pySliceEllipsis]
                · rw [strData_append, List.length_append, pyTake_length,
                    show ("...").data.length = 3 from rfl]
                  omega
                · rw [strData_append, List.length_append, pyTake_length,
                    show ("...").data.length = 3 from rfl]
                  omega
              · refine ⟨s, ?_, by omega, by omega⟩
                rw [pySet_self d "summary" (.str s) hg]
                simp [hg, pyTruthyOpt, hsv, pyValLen, bind, Except.bind, h20, h300]
          · simp only [Bool.not_eq_true] at hsv
            refine ⟨vcSynthSummary (pyLower t) (pyLower c), ?_, hsynth.1, hsynth.2⟩
            simp [hg, pyTruthyOpt, hsv, htg, hcg, pyValLower, bind, Except.bind]
      | num q =>
          simp only [Bool.not_eq_true'] at hs
          refine ⟨vcSynthSummary (pyLower t) (pyLower c), ?_, hsynth.1, hsynth.2⟩
          simp [hg, pyTruthyOpt, hs, htg, hcg, pyValLower, bind, Except.bind]
      | pybool b =>
          simp only [Bool.not_eq_true'] at hs
          refine ⟨vcSynthSummary (pyLower t) (pyLower c), ?_, hsynth.1, hsynth.2⟩
          simp [hg, pyTruthyOpt, hs, htg, hcg, pyValLower, bind, Except.bind]
      | null =>
          refine ⟨vcSynthSummary (pyLower t) (pyLower c), ?_, hsynth.1, hsynth.2⟩
          simp [hg, pyTruthyOpt, pyTruthy, htg, hcg, pyValLower, bind, Except.bind]
      | list l =>
          simp only [Bool.not_eq_true'] at hs
          refine ⟨vcSynthSummary (pyLower t) (pyLower c), ?_, hsynth.1, hsynth.2⟩
          simp [hg, pyTruthyOpt, hs, htg, hcg, pyValLower, bind, Except.bind]
      | dict dd =>
          simp only [Bool.not_eq_true'] at hs
          refine ⟨vcSynthSummary (pyLower t) (pyLower c), ?_, hsynth.1, hsynth.2⟩
          simp [hg, pyTruthyOpt, hs, htg, hcg, pyValLower, bind, Except.bind]

theorem vcPreviewStep_ok (d : PyDict)
    (hp : vcStrOrFalsy d "content_preview" = true) :
    ∃ pv : PyVal, vcPreviewStep d = .ok (pySet d "content_preview" pv) := by
  unfold vcStrOrFalsy at hp
  unfold vcPreviewStep
  cases hg : pyGet d "content_preview" with
  | none =>
      refine ⟨.str ("Document: " ++ pyFStr ((pyGet d "title").getD .null)), ?_⟩
      simp [hg, pyTruthyOpt]
  | some v =>
      rw [hg] at hp
      cases v with
      | str s =>
          by_cases hsv : pyTruthy (.str s) = true
          · by_cases h100 : 100 < s.length
            · refine ⟨.str (pyTake s 97 ++ "..."), ?_⟩
              simp [hg, pyTruthyOpt, hsv, pyValLen, bind, Except.bind, h100,
                pySliceEllipsis]
            · refine ⟨.str s, ?_⟩
              rw [pySet_self d "content_preview" (.str s) hg]
              simp [hg, pyTruthyOpt, hsv, pyValLen, bind, Except.bind, h100]
          · simp only [Bool.not_eq_true] at hsv
            refine ⟨.str ("Document: " ++ pyFStr ((pyGet d "title").getD .null)), ?_⟩
            simp [hg, pyTruthyOpt, hsv]
      | num q =>
          simp only [Bool.not_eq_true'] at hp
          refine ⟨.str ("Document: " ++ pyFStr ((pyGet d "title").getD .null)), ?_⟩
          simp [hg, pyTruthyOpt, hp]
      | pybool b =>
          simp only [Bool.not_eq_true'] at hp
          refine ⟨.str ("Document: " ++ pyFStr ((pyGet d "title").getD .null)), ?_⟩
          simp [hg, pyTruthyOpt, hp]
      | null =>
          refine ⟨.str ("Document: " ++ pyFStr ((pyGet d "title").getD .null)), ?_⟩
          simp [hg, pyTruthyOpt, pyTruthy]
      | list l =>
          simp only [Bool.not_eq_true'] at hp
          refine ⟨.str ("Document: " ++ pyFStr ((pyGet d "title").getD .null)), ?_⟩
          simp [hg, pyTruthyOpt, hp]
      | dict dd =>
          simp only [Bool.not_eq_true'] at hp
          refine ⟨.str ("Document: " ++ pyFStr ((pyGet d "title").getD .null)), ?_⟩
          simp [hg, pyTruthyOpt, hp]

/-- C1: counterexample.  Validation is not total: a record whose title is
the number 3 (truthy, so it reaches the .strip() call) makes
_validate_and_clean raise AttributeError, instead of returning a record. -/
theorem validation_total_counterexample :
    validate_and_clean [("title", PyVal.num 3)] "doc.pdf" =
      Except.error "AttributeError: no attribute strip" := rfl

/-- C1 (amended): on every record whose title, summary and content_preview
fields, when present and truthy, are strings (title of at most 200
characters), and every filename of at most 200 characters, the
validate-and-fill step terminates without raising and returns a record
whose category is in the category enum, whose difficulty is in {Beginner,
Intermediate, Advanced}, whose keywords field is a non-empty list of at
most 5 items, whose authors field is a list, and whose summary is a string
of 20 to 300 characters. -/
theorem validation_total_amended (d : PyDict) (filename : String)
    (ht : vcTitleOk d 200 = true)
    (hs : vcStrOrFalsy d "summary" = true)
    (hp : vcStrOrFalsy d "content_preview" = true)
    (hf : filename.data.length ≤ 200) :
    ∃ out : PyDict, validate_and_clean d filename = Except.ok out ∧
      categoryValid (pyGet out "category") = true ∧
      difficultyValid (pyGet out "difficulty") = true ∧
      (∃ kw : List PyVal, pyGet out "keywords" = some (.list kw) ∧
        1 ≤ kw.length ∧ kw.length ≤ 5) ∧
      (∃ au : List PyVal, pyGet out "authors" = some (.list au)) ∧
      (∃ sm : String, pyGet out "summary" = some (.str sm) ∧
        20 ≤ sm.data.length ∧ sm.data.length ≤ 300) := by
  obtain ⟨t, h1, htl⟩ := vcTitleStep_ok d filename 200 ht hf
  set d1 : PyDict := pySet d "title" (PyVal.str t) with hd1
  obtain ⟨c, h2, hcmem⟩ := vcCategoryStep_ok d1 filename
  set d2 : PyDict := pySet d1 "category" (PyVal.str c) with hd2
  obtain ⟨df, h3, hdfmem⟩ := vcDifficultyStep_ok d2
  set d3 : PyDict := pySet d2 "difficulty" (PyVal.str df) with hd3
  have hc3 : pyGet d3 "category" = some (PyVal.str c) := by
    rw [hd3, pyGet_pySet_other _ "difficulty" "category" _ (by decide),
      hd2, pyGet_pySet_same]
  obtain ⟨kw, h4, hkw1, hkw5⟩ := vcKeywordsStep_ok d3 (PyVal.str c) hc3
  set d4 : PyDict := pySet d3 "keywords" (PyVal.list kw) with hd4
  obtain ⟨au, h5⟩ := vcAuthorsStep_ok d4
  set d5 : PyDict := pySet d4 "authors" (PyVal.list au) with hd5
  have ht5 : pyGet d5 "title" = some (PyVal.str t) := by
    rw [hd5, pyGet_pySet_other _ "authors" "title" _ (by decide),
      hd4, pyGet_pySet_other _ "keywords" "title" _ (by decide),
      hd3, pyGet_pySet_other _ "difficulty" "title" _ (by decide),
      hd2, pyGet_pySet_other _ "category" "title" _ (by decide),
      hd1, pyGet_pySet_same]
  have hc5 : pyGet d5 "category" = some (PyVal.str c) := by
    rw [hd5, pyGet_pySet_other _ "authors" "category" _ (by decide),
      hd4, pyGet_pySet_other _ "keywords" "category" _ (by decide), hc3]
  have hsumeq : pyGet d5 "summary" = pyGet d "summary" := by
    rw [hd5, pyGet_pySet_other _ "authors" "summary" _ (by decide),
      hd4, pyGet_pySet_other _ "keywords" "summary" _ (by decide),
      hd3, pyGet_pySet_other _ "difficulty" "summary" _ (by decide),
      hd2, pyGet_pySet_other _ "category" "summary" _ (by decide),
      hd1, pyGet_pySet_other _ "title" "summary" _ (by decide)]
  obtain ⟨sm, h6, hsm1, hsm2⟩ := vcSummaryStep_ok d5 t c ht5 hc5 htl
    (valid_category_mem_length c hcmem)
    (by rw [vcStrOrFalsy_congr d d5 "summary" hsumeq]; exact hs)
  set d6 : PyDict := pySet d5 "summary" (PyVal.str sm) with hd6
  have hprev6 : vcStrOrFalsy d6 "content_preview" = true := by
    have hpe : pyGet d6 "content_preview" = pyGet d "content_preview" := by
      rw [hd6, pyGet_pySet_other _ "summary" "content_preview" _ (by decide),
        hd5, pyGet_pySet_other _ "authors" "content_preview" _ (by decide),
        hd4, pyGet_pySet_other _ "keywords" "content_preview" _ (by decide),
        hd3, pyGet_pySet_other _ "difficulty" "content_preview" _ (by decide),
        hd2, pyGet_pySet_other _ "category" "content_preview" _ (by decide),
        hd1, pyGet_pySet_other _ "title" "content_preview" _ (by decide)]
    rw [vcStrOrFalsy_congr d d6 "content_preview" hpe]
    exact hp
  obtain ⟨pv, h7⟩ := vcPreviewStep_ok d6 hprev6
  refine ⟨pySet d6 "content_preview" pv, ?_, ?_, ?_, ?_, ?_, ?_⟩
  · unfold validate_and_clean
    rw [h1]
    simp only [bind, Except.bind, h2, h3]
    rw [h4]
    simp only [bind, Except.bind, h5]
    rw [h6]
    simp only [bind, Except.bind]
    exact h7
  · rw [pyGet_pySet_other _ "content_preview" "category" _ (by decide),
      hd6, pyGet_pySet_other _ "summary" "category" _ (by decide), hc5]
    exact categoryValid_of_mem c hcmem
  · rw [pyGet_pySet_other _ "content_preview" "difficulty" _ (by decide),
      hd6, pyGet_pySet_other _ "summary" "difficulty" _ (by decide),
      hd5, pyGet_pySet_other _ "authors" "difficulty" _ (by decide),
      hd4, pyGet_pySet_other _ "keywords" "difficulty" _ (by decide),
      hd3, pyGet_pySet_same]
    exact difficultyValid_of_mem df hdfmem
  · refine ⟨kw, ?_, hkw1, hkw5⟩
    rw [pyGet_pySet_other _ "content_preview" "keywords" _ (by decide),
      hd6, pyGet_pySet_other _ "summary" "keywords" _ (by decide),
      hd5, pyGet_pySet_other _ "authors" "keywords" _ (by decide),
      hd4, pyGet_pySet_same]
  · refine ⟨au, ?_⟩
    rw [pyGet_pySet_other _ "content_preview" "authors" _ (by decide),
      hd6, pyGet_pySet_other _ "summary" "authors" _ (by decide),
      hd5, pyGet_pySet_same]
  · refine ⟨sm, ?_, hsm1, hsm2⟩
    rw [pyGet_pySet_other _ "content_preview" "summary" _ (by decide),
      hd6, pyGet_pySet_same]

theorem validation_total_amended_witness :
    vcTitleOk [] 200 = true ∧ vcStrOrFalsy [] "summary" = true ∧
      vcStrOrFalsy [] "content_preview" = true ∧
      ("doc.pdf" : String).data.length ≤ 200 ∧
      (∃ out : PyDict, validate_and_clean [] "doc.pdf" = Except.ok out ∧
        categoryValid (pyGet out "category") = true ∧
        difficultyValid (pyGet out "difficulty") = true ∧
        (∃ kw : List PyVal, pyGet out "keywords" = some (.list kw) ∧
          1 ≤ kw.length ∧ kw.length ≤ 5) ∧
        (∃ au : List PyVal, pyGet out "authors" = some (.list au)) ∧
        (∃ sm : String, pyGet out "summary" = some (.str sm) ∧
          20 ≤ sm.data.length ∧ sm.data.length ≤ 300)) :=
  ⟨by decide, by decide, by decide, by decide,
    validation_total_amended [] "doc.pdf" (by decide) (by decide) (by decide)
      (by decide)⟩

theorem regGet_regSet_same (reg : List (String × String)) (k v : String) :
    regGet (regSet reg k v) k = some v := by
  induction reg with
  | nil => simp [regSet, regGet, List.find?]
  | cons kv rest ih =>
      obtain ⟨k0, v0⟩ := kv
      by_cases h : k0 = k
      · simp [regSet, regGet, List.find?, h]
      · have hb : (k0 == k) = false := by simp [h]
        simp only [regSet, hb, Bool.false_eq_true, if_false]
        simpa [regGet, List.find?, hb] using ih

theorem regGet_regSet_other (reg : List (String × String)) (k k2 v : String)
    (h : k2 ≠ k) : regGet (regSet reg k v) k2 = regGet reg k2 := by
  induction reg with
  | nil =>
      have hb : (k == k2) = false := by simp [Ne.symm h]
      simp [regSet, regGet, List.find?, hb]
  | cons kv rest ih =>
      obtain ⟨k0, v0⟩ := kv
      by_cases h0 : k0 = k
      · subst h0
        have hb : (k0 == k2) = false := by simp [Ne.symm h]
        simp [regSet, regGet, List.find?, hb]
      · have hb0 : (k0 == k) = false := by simp [h0]
        simp only [regSet, hb0, Bool.false_eq_true, if_false]
        by_cases h2 : k0 = k2
        · subst h2
          simp [regGet, List.find?]
        · have hb2 : (k0 == k2) = false := by simp [h2]
          simp only [regGet, List.find?, hb2] at ih ⊢
          exact ih

theorem needsProcessing_congr (force : Bool) (reg reg2 : List (String × String))
    (f : SrcFile) (h : regGet reg2 f.path = regGet reg f.path) :
    needsProcessing force reg2 f = needsProcessing force reg f := by
  unfold needsProcessing
  rw [h]

theorem scanStep_reg_processed (procDoc : SrcFile → PyDict) (force : Bool)
    (acc : ScanAcc) (f : SrcFile) :
    regGet (scanStep procDoc force acc f).processed_files f.path = some f.hash := by
  unfold scanStep
  by_cases hn : needsProcessing force acc.processed_files f = true
  · simp only [hn, if_true]
    exact regGet_regSet_same _ _ _
  · simp only [Bool.not_eq_true] at hn
    simp only [hn, Bool.false_eq_true, if_false]
    unfold needsProcessing at hn
    simp only [Bool.or_eq_false_iff] at hn
    obtain ⟨⟨h1, h2⟩, h3⟩ := hn
    exact bne_eq_false_iff_eq.mp h3

theorem scanStep_reg_other (procDoc : SrcFile → PyDict) (force : Bool)
    (acc : ScanAcc) (f : SrcFile) (p : String) (h : p ≠ f.path) :
    regGet (scanStep procDoc force acc f).processed_files p =
      regGet acc.processed_files p := by
  unfold scanStep
  by_cases hn : needsProcessing force acc.processed_files f = true
  · simp only [hn, if_true]
    exact regGet_regSet_other _ _ _ _ h
  · simp only [Bool.not_eq_true] at hn
    simp only [hn, Bool.false_eq_true, if_false]

theorem scanFold_regGet_preserve (procDoc : SrcFile → PyDict) (force : Bool) :
    ∀ (files : List SrcFile) (acc : ScanAcc) (p v : String),
      (∀ g ∈ files, g.path ≠ p) →
      regGet acc.processed_files p = some v →
      regGet ((files.foldl (scanStep procDoc force) acc).processed_files) p = some v := by
  intro files
  induction files with
  | nil => intro acc p v _ h; simpa using h
  | cons g gs ih =>
      intro acc p v hne h
      simp only [List.foldl_cons]
      refine ih _ p v (fun x hx => hne x (List.mem_cons_of_mem _ hx)) ?_
      rw [scanStep_reg_other procDoc force acc g p
        (fun he => hne g (List.mem_cons_self _ _) he.symm)]
      exact h

theorem scanFold_regGet_all (procDoc : SrcFile → PyDict) (force : Bool) :
    ∀ (files : List SrcFile) (acc : ScanAcc),
      files.Pairwise (fun a b => a.path ≠ b.path) →
      ∀ f ∈ files,
        regGet ((files.foldl (scanStep procDoc force) acc).processed_files) f.path =
          some f.hash := by
  intro files
  induction files with
  | nil => intro acc _ f hf; cases hf
  | cons g gs ih =>
      intro acc hp f hf
      rw [List.pairwise_cons] at hp
      rcases List.mem_cons.mp hf with rfl | hmem
      · simp only [List.foldl_cons]
        refine scanFold_regGet_preserve procDoc force gs _ _ _
          (fun x hx he => hp.1 x hx he.symm) ?_
        exact scanStep_reg_processed procDoc force acc f
      · simp only [List.foldl_cons]
        exact ih _ hp.2 f hmem

theorem scanFold_idle (procDoc : SrcFile → PyDict) (force : Bool) :
    ∀ (files : List SrcFile) (acc : ScanAcc),
      (∀ f ∈ files, needsProcessing force acc.processed_files f = false) →
      files.foldl (scanStep procDoc force) acc = acc := by
  intro files
  induction files with
  | nil => intro acc _; rfl
  | cons g gs ih =>
      intro acc h
      have hstep : scanStep procDoc force acc g = acc := by
        unfold scanStep
        simp [h g (List.mem_cons_self _ _)]
      simp only [List.foldl_cons, hstep]
      exact ih acc (fun f hf => h f (List.mem_cons_of_mem _ hf))

theorem scanFold_updated_false (procDoc : SrcFile → PyDict) (force : Bool) :
    ∀ (files : List SrcFile) (acc : ScanAcc),
      (files.foldl (scanStep procDoc force) acc).updated = false →
      files.foldl (scanStep procDoc force) acc = acc := by
  intro files
  induction files with
  | nil => intro acc _; rfl
  | cons g gs ih =>
      intro acc h
      simp only [List.foldl_cons] at h ⊢
      have h2 := ih _ h
      rw [h2] at h ⊢
      by_cases hn : needsProcessing force acc.processed_files g = true
      · exfalso
        unfold scanStep at h
        simp [hn] at h
      · unfold scanStep
        simp [hn]


theorem scanFold_newDocs (procDoc : SrcFile → PyDict) (force : Bool) :
    ∀ (files : List SrcFile) (acc : ScanAcc),
      files.Pairwise (fun a b => a.path ≠ b.path) →
      (files.foldl (scanStep procDoc force) acc).new_documents =
        acc.new_documents ++
          (files.filter (needsProcessing force acc.processed_files)).map procDoc := by
  intro files
  induction files with
  | nil => intro acc _; simp
  | cons g gs ih =>
      intro acc hp
      rw [List.pairwise_cons] at hp
      simp only [List.foldl_cons]
      by_cases hn : needsProcessing force acc.processed_files g = true
      · have hstep : scanStep procDoc force acc g =
            { processed_files := regSet acc.processed_files g.path g.hash,
              existing_documents := acc.existing_documents.filter
                (fun d => !(pyBeq (docFilename d) (.str g.name))),
              new_documents := acc.new_documents ++ [procDoc g],
              updated := true } := by
          unfold scanStep
          simp [hn]
        rw [hstep, ih _ hp.2]
        have hcongr : ∀ x ∈ gs,
            needsProcessing force (regSet acc.processed_files g.path g.hash) x =
              needsProcessing force acc.processed_files x := by
          intro x hx
          exact needsProcessing_congr force _ _ x
            (regGet_regSet_other _ _ _ _ (fun he => hp.1 x hx he.symm))
        rw [List.filter_congr hcongr]
        simp [List.filter_cons, hn]
      · have hstep : scanStep procDoc force acc g = acc := by
          unfold scanStep
          simp [hn]
        rw [hstep, ih _ hp.2]
        simp only [Bool.not_eq_true] at hn
        simp [List.filter_cons, hn]

theorem scanFold_existing (procDoc : SrcFile → PyDict) (force : Bool) :
    ∀ (files : List SrcFile) (acc : ScanAcc),
      files.Pairwise (fun a b => a.path ≠ b.path) →
      (files.foldl (scanStep procDoc force) acc).existing_documents =
        acc.existing_documents.filter (fun d =>
          !((files.filter (needsProcessing force acc.processed_files)).any
            (fun f => pyBeq (docFilename d) (.str f.name)))) := by
  intro files
  induction files with
  | nil => intro acc _; simp
  | cons g gs ih =>
      intro acc hp
      rw [List.pairwise_cons] at hp
      simp only [List.foldl_cons]
      by_cases hn : needsProcessing force acc.processed_files g = true
      · have hstep : scanStep procDoc force acc g =
            { processed_files := regSet acc.processed_files g.path g.hash,
              existing_documents := acc.existing_documents.filter
                (fun d => !(pyBeq (docFilename d) (.str g.name))),
              new_documents := acc.new_documents ++ [procDoc g],
              updated := true } := by
          unfold scanStep
          simp [hn]
        rw [hstep, ih _ hp.2]
        have hcongr : ∀ x ∈ gs,
            needsProcessing force (regSet acc.processed_files g.path g.hash) x =
              needsProcessing force acc.processed_files x := by
          intro x hx
          exact needsProcessing_congr force _ _ x
            (regGet_regSet_other _ _ _ _ (fun he => hp.1 x hx he.symm))
        rw [List.filter_congr hcongr]
        simp only [List.filter_filter, List.filter_cons, hn, if_true]
        refine List.filter_congr ?_
        intro d _
        simp only [List.any_cons, Bool.not_or]
        rw [Bool.and_comm]
      · have hstep : scanStep procDoc force acc g = acc := by
          unfold scanStep
          simp [hn]
        rw [hstep, ih _ hp.2]
        simp only [Bool.not_eq_true] at hn
        simp [List.filter_cons, hn]

theorem scanFold_newDocs_mem (procDoc : SrcFile → PyDict) (force : Bool) :
    ∀ (files : List SrcFile) (acc : ScanAcc) (d : PyDict),
      d ∈ (files.foldl (scanStep procDoc force) acc).new_documents →
      d ∈ acc.new_documents ∨ ∃ f ∈ files, d = procDoc f := by
  intro files
  induction files with
  | nil => intro acc d h; exact Or.inl h
  | cons g gs ih =>
      intro acc d h
      simp only [List.foldl_cons] at h
      rcases ih _ d h with hmem | ⟨f, hf, rfl⟩
      · unfold scanStep at hmem
        by_cases hn : needsProcessing force acc.processed_files g = true
        · simp only [hn, if_true] at hmem
          simp only [List.mem_append, List.mem_singleton] at hmem
          rcases hmem with hmem | rfl
          · exact Or.inl hmem
          · exact Or.inr ⟨g, List.mem_cons_self _ _, rfl⟩
        · simp only [Bool.not_eq_true] at hn
          simp only [hn, Bool.false_eq_true, if_false] at hmem
          exact Or.inl hmem
      · exact Or.inr ⟨f, List.mem_cons_of_mem _ hf, rfl⟩

theorem scanFold_existing_mem (procDoc : SrcFile → PyDict) (force : Bool) :
    ∀ (files : List SrcFile) (acc : ScanAcc) (d : PyDict),
      d ∈ (files.foldl (scanStep procDoc force) acc).existing_documents →
      d ∈ acc.existing_documents := by
  intro files
  induction files with
  | nil => intro acc d h; exact h
  | cons g gs ih =>
      intro acc d h
      simp only [List.foldl_cons] at h
      have h2 := ih _ d h
      unfold scanStep at h2
      by_cases hn : needsProcessing force acc.processed_files g = true
      · simp only [hn, if_true] at h2
        exact List.mem_of_mem_filter h2
      · simp only [Bool.not_eq_true] at hn
        simp only [hn, Bool.false_eq_true, if_false] at h2
        exact h2

theorem removeFold_mem_sub :
    ∀ (ps : List String) (l : List PyDict) (d : PyDict),
      d ∈ ps.foldl (fun docs p => docs.filter
        (fun d => !(pyBeq (docFilename d) (.str (pyBasename p))))) l →
      d ∈ l := by
  intro ps
  induction ps with
  | nil => intro l d h; exact h
  | cons p qs ih =>
      intro l d h
      simp only [List.foldl_cons] at h
      exact List.mem_of_mem_filter (ih _ d h)

theorem removeFold_pred :
    ∀ (ps : List String) (l : List PyDict) (d : PyDict) (p : String),
      p ∈ ps →
      d ∈ ps.foldl (fun docs p => docs.filter
        (fun d => !(pyBeq (docFilename d) (.str (pyBasename p))))) l →
      pyBeq (docFilename d) (.str (pyBasename p)) = false := by
  intro ps
  induction ps with
  | nil => intro l d p hp; cases hp
  | cons q qs ih =>
      intro l d p hp h
      simp only [List.foldl_cons] at h
      rcases List.mem_cons.mp hp with rfl | hmem
      · have h2 := removeFold_mem_sub qs _ d h
        have h3 := List.of_mem_filter h2
        simpa using h3
      · exact ih _ d p hmem h

theorem regGet_filter_dead (files : List SrcFile) (p : String)
    (hdead : pathExists files p = false) :
    ∀ reg : List (String × String),
      regGet (reg.filter (fun kv => pathExists files kv.1)) p = none := by
  intro reg
  induction reg with
  | nil => rfl
  | cons kv rest ih =>
      obtain ⟨k0, v0⟩ := kv
      by_cases hk : pathExists files k0 = true
      · have hne : (k0 == p) = false := by
          by_cases he : k0 = p
          · rw [he] at hk
            rw [hk] at hdead
            cases hdead
          · simp [he]
        simp only [List.filter_cons, hk, if_true]
        simpa [regGet, List.find?, hne] using ih
      · simp only [Bool.not_eq_true] at hk
        simp only [List.filter_cons, hk, Bool.false_eq_true, if_false]
        exact ih

theorem regGet_isSome_regSet (reg : List (String × String)) (k v p : String)
    (h : (regGet reg p).isSome = true) :
    (regGet (regSet reg k v) p).isSome = true := by
  by_cases he : p = k
  · subst he
    rw [regGet_regSet_same]
    rfl
  · rw [regGet_regSet_other _ _ _ _ he]
    exact h

theorem scanFold_regGet_isSome (procDoc : SrcFile → PyDict) (force : Bool) :
    ∀ (files : List SrcFile) (acc : ScanAcc) (p : String),
      (regGet acc.processed_files p).isSome = true →
      (regGet ((files.foldl (scanStep procDoc force) acc).processed_files) p).isSome
        = true := by
  intro files
  induction files with
  | nil => intro acc p h; exact h
  | cons g gs ih =>
      intro acc p h
      simp only [List.foldl_cons]
      refine ih _ p ?_
      unfold scanStep
      by_cases hn : needsProcessing force acc.processed_files g = true
      · simp only [hn, if_true]
        exact regGet_isSome_regSet _ _ _ _ h
      · simp only [Bool.not_eq_true] at hn
        simp only [hn, Bool.false_eq_true, if_false]
        exact h

theorem regGet_isSome_mem_keys :
    ∀ (reg : List (String × String)) (p : String),
      (regGet reg p).isSome = true → p ∈ reg.map (·.1) := by
  intro reg
  induction reg with
  | nil => intro p h; cases h
  | cons kv rest ih =>
      obtain ⟨k0, v0⟩ := kv
      intro p h
      by_cases he : k0 = p
      · subst he
        exact List.mem_cons_self _ _
      · have hne : (k0 == p) = false := by simp [he]
        simp only [regGet, List.find?, hne] at h
        exact List.mem_cons_of_mem _ (ih p h)

/-- C2: the pipeline is idempotent.  With force off and an unchanged file
set (pairwise-distinct paths, same hashes), a second run of
scan_and_process starting from the durable state left by the first run
performs no write: it returns the registry and both corpus copies exactly
as the first run left them, with wrote = false. -/
theorem scan_idempotent (procDoc : SrcFile → PyDict) (dirExists modelOk : Bool)
    (files : List SrcFile) (reg0 : List (String × String))
    (docs0 distDocs0 : List PyDict) (r1 : ScanResult)
    (hdis : files.Pairwise (fun a b => a.path ≠ b.path))
    (h1 : FixedProc.scan_and_process procDoc dirExists modelOk files false
      reg0 docs0 distDocs0 = r1) :
    FixedProc.scan_and_process procDoc dirExists modelOk files false
      r1.registry r1.dataDocs r1.distDocs =
      ⟨r1.registry, r1.dataDocs, r1.distDocs, false, false⟩ := by
  by_cases hd : dirExists = true
  · by_cases hm : modelOk = true
    · subst hd
      subst hm
      unfold FixedProc.scan_and_process at h1 ⊢
      simp only [Bool.not_true, Bool.false_eq_true, if_false, Bool.or_false] at h1 ⊢
      by_cases hu : (files.foldl (scanStep procDoc false)
          ⟨reg0, docs0, [], false⟩).updated = true
      · rw [if_pos hu] at h1
        subst h1
        dsimp only
        have hall := scanFold_regGet_all procDoc false files ⟨reg0, docs0, [], false⟩ hdis
        have hidle : ∀ f ∈ files,
            needsProcessing false (files.foldl (scanStep procDoc false)
              ⟨reg0, docs0, [], false⟩).processed_files f = false := by
          intro f hf
          unfold needsProcessing
          rw [hall f hf]
          simp
        rw [scanFold_idle procDoc false files
          ⟨(files.foldl (scanStep procDoc false) ⟨reg0, docs0, [], false⟩).processed_files,
           List.insertionSort docLe
             ((files.foldl (scanStep procDoc false)
                ⟨reg0, docs0, [], false⟩).existing_documents ++
              (files.foldl (scanStep procDoc false)
                ⟨reg0, docs0, [], false⟩).new_documents),
           [], false⟩
          (fun f hf => hidle f hf)]
        simp
      · simp only [Bool.not_eq_true] at hu
        rw [if_neg (by simp [hu])] at h1
        subst h1
        rw [if_neg (by simp [hu])]
    · simp only [Bool.not_eq_true] at hm
      subst hd
      subst hm
      unfold FixedProc.scan_and_process
      simp only [Bool.not_true, Bool.not_false, Bool.false_eq_true, if_false,
        if_true]
  · simp only [Bool.not_eq_true] at hd
    subst hd
    unfold FixedProc.scan_and_process
    simp only [Bool.not_false, if_true]

theorem scan_idempotent_witness :
    ([⟨"documents/a.pdf", "a.pdf", "h1"⟩] : List SrcFile).Pairwise
      (fun a b => a.path ≠ b.path) ∧
    FixedProc.scan_and_process (fun f => [("filename", PyVal.str f.name)]) true true
      [⟨"documents/a.pdf", "a.pdf", "h1"⟩] false [] [] [] =
      (⟨[("documents/a.pdf", "h1")], [[("filename", PyVal.str "a.pdf")]],
        [[("filename", PyVal.str "a.pdf")]], true, true⟩ : ScanResult) ∧
    FixedProc.scan_and_process (fun f => [("filename", PyVal.str f.name)]) true true
      [⟨"documents/a.pdf", "a.pdf", "h1"⟩] false
      (⟨[("documents/a.pdf", "h1")], [[("filename", PyVal.str "a.pdf")]],
        [[("filename", PyVal.str "a.pdf")]], true, true⟩ : ScanResult).registry
      (⟨[("documents/a.pdf", "h1")], [[("filename", PyVal.str "a.pdf")]],
        [[("filename", PyVal.str "a.pdf")]], true, true⟩ : ScanResult).dataDocs
      (⟨[("documents/a.pdf", "h1")], [[("filename", PyVal.str "a.pdf")]],
        [[("filename", PyVal.str "a.pdf")]], true, true⟩ : ScanResult).distDocs =
      ⟨(⟨[("documents/a.pdf", "h1")], [[("filename", PyVal.str "a.pdf")]],
        [[("filename", PyVal.str "a.pdf")]], true, true⟩ : ScanResult).registry,
       (⟨[("documents/a.pdf", "h1")], [[("filename", PyVal.str "a.pdf")]],
        [[("filename", PyVal.str "a.pdf")]], true, true⟩ : ScanResult).dataDocs,
       (⟨[("documents/a.pdf", "h1")], [[("filename", PyVal.str "a.pdf")]],
        [[("filename", PyVal.str "a.pdf")]], true, true⟩ : ScanResult).distDocs,
       false, false⟩ :=
  ⟨by decide, by decide,
    scan_idempotent (fun f => [("filename", PyVal.str f.name)]) true true
      [⟨"documents/a.pdf", "a.pdf", "h1"⟩] [] [] []
      ⟨[("documents/a.pdf", "h1")], [[("filename", PyVal.str "a.pdf")]],
        [[("filename", PyVal.str "a.pdf")]], true, true⟩
      (by decide) (by decide)⟩

theorem all_of_filter {p q : PyDict → Bool} (l : List PyDict)
    (h : l.all q = true) : (l.filter p).all q = true := by
  rw [List.all_eq_true] at h ⊢
  intro d hd
  exact h d (List.mem_of_mem_filter hd)

theorem filterNotNameE_ok (name : String) :
    ∀ docs : List PyDict,
      docs.all (fun d => (pyGet d "filename").isSome) = true →
      filterNotNameE name docs =
        .ok (docs.filter (fun d => !(pyBeq (docFilename d) (.str name)))) := by
  intro docs
  induction docs with
  | nil => intro _; rfl
  | cons d rest ih =>
      intro h
      simp only [List.all_cons, Bool.and_eq_true] at h
      obtain ⟨hd, hrest⟩ := h
      cases hg : pyGet d "filename" with
      | none => rw [hg] at hd; cases hd
      | some v =>
          have hdf : docFilename d = v := by
            unfold docFilename pyGetD
            rw [hg]
            rfl
          unfold filterNotNameE docFilenameE
          rw [hg]
          simp only [bind, Except.bind]
          rw [ih hrest]
          by_cases hbeq : pyBeq v (.str name) = true
          · simp [List.filter_cons, hdf, hbeq]
          · simp only [Bool.not_eq_true] at hbeq
            simp [List.filter_cons, hdf, hbeq]

theorem scanFoldE_ok (procDoc : SrcFile → PyDict) (force : Bool) :
    ∀ (files : List SrcFile) (acc : ScanAcc),
      acc.existing_documents.all (fun d => (pyGet d "filename").isSome) = true →
      scanFoldE procDoc force files acc =
        .ok (files.foldl (scanStep procDoc force) acc) := by
  intro files
  induction files with
  | nil => intro acc _; rfl
  | cons f fs ih =>
      intro acc h
      unfold scanFoldE scanStepE
      by_cases hn : needsProcessing force acc.processed_files f = true
      · simp only [hn, if_true, filterNotNameE_ok f.name acc.existing_documents h,
          bind, Except.bind]
        have hstep : scanStep procDoc force acc f =
            { processed_files := regSet acc.processed_files f.path f.hash,
              existing_documents := acc.existing_documents.filter
                (fun d => !(pyBeq (docFilename d) (.str f.name))),
              new_documents := acc.new_documents ++ [procDoc f],
              updated := true } := by
          unfold scanStep
          simp [hn]
        rw [List.foldl_cons, hstep]
        exact ih _ (all_of_filter _ h)
      · simp only [Bool.not_eq_true] at hn
        simp only [hn, Bool.false_eq_true, if_false, bind, Except.bind]
        have hstep : scanStep procDoc force acc f = acc := by
          unfold scanStep
          simp [hn]
        rw [List.foldl_cons, hstep]
        exact ih _ h

theorem removeDeadE_ok :
    ∀ (ps : List String) (docs : List PyDict),
      docs.all (fun d => (pyGet d "filename").isSome) = true →
      BaseProc.removeDeadE ps docs =
        .ok (ps.foldl (fun docs p => docs.filter
          (fun d => !(pyBeq (docFilename d) (.str (pyBasename p))))) docs) := by
  intro ps
  induction ps with
  | nil => intro docs _; rfl
  | cons p qs ih =>
      intro docs h
      unfold BaseProc.removeDeadE
      simp only [filterNotNameE_ok (pyBasename p) docs h, bind, Except.bind]
      rw [List.foldl_cons]
      exact ih _ (all_of_filter _ h)

theorem scan_and_processE_ok (procDoc : SrcFile → PyDict)
    (dirExists modelOk : Bool) (files : List SrcFile)
    (reg0 : List (String × String)) (docs0 distDocs0 : List PyDict)
    (h : docs0.all (fun d => (pyGet d "filename").isSome) = true) :
    BaseProc.scan_and_processE procDoc dirExists modelOk files reg0 docs0
        distDocs0 =
      .ok (BaseProc.scan_and_process procDoc dirExists modelOk files reg0 docs0
        distDocs0) := by
  unfold BaseProc.scan_and_processE BaseProc.scan_and_process
  by_cases hd : dirExists = true
  · by_cases hm : modelOk = true
    · subst hd
      subst hm
      simp only [Bool.not_true, Bool.false_eq_true, if_false]
      rw [scanFoldE_ok procDoc false files ⟨reg0, docs0, [], false⟩ h]
      simp only [bind, Except.bind]
      have hex : ((files.foldl (scanStep procDoc false)
          ⟨reg0, docs0, [], false⟩).existing_documents).all
          (fun d => (pyGet d "filename").isSome) = true := by
        rw [List.all_eq_true]
        intro d hd2
        have hmem := scanFold_existing_mem procDoc false files
          ⟨reg0, docs0, [], false⟩ d hd2
        exact List.all_eq_true.mp h d hmem
      rw [removeDeadE_ok _ _ hex]
      simp only [bind, Except.bind]
      by_cases hu : ((files.foldl (scanStep procDoc false)
          ⟨reg0, docs0, [], false⟩).updated ||
          !(((files.foldl (scanStep procDoc false)
            ⟨reg0, docs0, [], false⟩).processed_files.map (·.1)).filter
            (fun p => !pathExists files p)).isEmpty) = true
      · rw [if_pos hu, if_pos hu]
      · rw [if_neg hu, if_neg hu]
    · simp only [Bool.not_eq_true] at hm
      subst hm
      simp
  · simp only [Bool.not_eq_true] at hd
    subst hd
    simp

/-- C3: change detection is exact.  Over a scan with pairwise-distinct file
paths and a loaded corpus whose records all carry a filename key (a record
without one makes the Python loop raise KeyError mid-scan, as the fallible
loop here shows by agreeing with the total one exactly under that
hypothesis), the loop completes, the records it regenerates are exactly
those of the files satisfying needsProcessing - force set, or the path
absent from the registry, or the stored hash differing from the file
hash - and the loaded records surviving it are exactly those whose
filename is claimed by no reprocessed file, so a skipped file's record is
left unchanged. -/
theorem change_detection_exact (procDoc : SrcFile → PyDict) (force : Bool)
    (files : List SrcFile) (reg0 : List (String × String)) (docs0 : List PyDict)
    (hdis : files.Pairwise (fun a b => a.path ≠ b.path))
    (hkeys : docs0.all (fun d => (pyGet d "filename").isSome) = true) :
    scanFoldE procDoc force files ⟨reg0, docs0, [], false⟩ =
      .ok (files.foldl (scanStep procDoc force) ⟨reg0, docs0, [], false⟩) ∧
    (files.foldl (scanStep procDoc force) ⟨reg0, docs0, [], false⟩).new_documents =
      (files.filter (needsProcessing force reg0)).map procDoc ∧
    (files.foldl (scanStep procDoc force) ⟨reg0, docs0, [], false⟩).existing_documents =
      docs0.filter (fun d =>
        !((files.filter (needsProcessing force reg0)).any
          (fun f => pyBeq (docFilename d) (.str f.name)))) := by
  refine ⟨?_, ?_, ?_⟩
  · exact scanFoldE_ok procDoc force files ⟨reg0, docs0, [], false⟩ hkeys
  · simpa using scanFold_newDocs procDoc force files ⟨reg0, docs0, [], false⟩ hdis
  · simpa using scanFold_existing procDoc force files ⟨reg0, docs0, [], false⟩ hdis

/-- The KeyError raise path of the scan loop is live: a loaded record
without a filename key aborts the scan at the first processed file, so
later eligible files are never examined - which is why the change-detection
theorem assumes records carry the key. -/
theorem scanFoldE_keyerror_example :
    scanFoldE (fun f => [("filename", PyVal.str f.name)]) false
      [⟨"documents/a.pdf", "a.pdf", "h1"⟩, ⟨"documents/b.pdf", "b.pdf", "h2"⟩]
      ⟨[], [[]], [], false⟩ = .error "KeyError: filename" := by
  rfl

theorem change_detection_exact_witness :
    ([⟨"documents/a.pdf", "a.pdf", "h1"⟩, ⟨"documents/b.pdf", "b.pdf", "h2"⟩] :
        List SrcFile).Pairwise (fun a b => a.path ≠ b.path) ∧
    ([[("filename", PyVal.str "b.pdf")]] : List PyDict).all
      (fun d => (pyGet d "filename").isSome) = true ∧
    scanFoldE (fun f => [("filename", PyVal.str f.name)]) false
      [⟨"documents/a.pdf", "a.pdf", "h1"⟩, ⟨"documents/b.pdf", "b.pdf", "h2"⟩]
      ⟨[("documents/b.pdf", "h2")], [[("filename", PyVal.str "b.pdf")]], [],
        false⟩ =
      .ok (([⟨"documents/a.pdf", "a.pdf", "h1"⟩, ⟨"documents/b.pdf", "b.pdf", "h2"⟩] :
        List SrcFile).foldl
          (scanStep (fun f => [("filename", PyVal.str f.name)]) false)
          ⟨[("documents/b.pdf", "h2")], [[("filename", PyVal.str "b.pdf")]], [],
            false⟩) ∧
    (([⟨"documents/a.pdf", "a.pdf", "h1"⟩, ⟨"documents/b.pdf", "b.pdf", "h2"⟩] :
        List SrcFile).foldl
          (scanStep (fun f => [("filename", PyVal.str f.name)]) false)
          ⟨[("documents/b.pdf", "h2")], [[("filename", PyVal.str "b.pdf")]], [],
            false⟩).new_documents =
      (([⟨"documents/a.pdf", "a.pdf", "h1"⟩, ⟨"documents/b.pdf", "b.pdf", "h2"⟩] :
        List SrcFile).filter
          (needsProcessing false [("documents/b.pdf", "h2")])).map
        (fun f => [("filename", PyVal.str f.name)]) ∧
    (([⟨"documents/a.pdf", "a.pdf", "h1"⟩, ⟨"documents/b.pdf", "b.pdf", "h2"⟩] :
        List SrcFile).foldl
          (scanStep (fun f => [("filename", PyVal.str f.name)]) false)
          ⟨[("documents/b.pdf", "h2")], [[("filename", PyVal.str "b.pdf")]], [],
            false⟩).existing_documents =
      ([[("filename", PyVal.str "b.pdf")]] : List PyDict).filter (fun d =>
        !((([⟨"documents/a.pdf", "a.pdf", "h1"⟩, ⟨"documents/b.pdf", "b.pdf", "h2"⟩] :
            List SrcFile).filter
              (needsProcessing false [("documents/b.pdf", "h2")])).any
          (fun f => pyBeq (docFilename d) (.str f.name)))) :=
  ⟨by decide, by decide,
    (change_detection_exact (fun f => [("filename", PyVal.str f.name)]) false
      [⟨"documents/a.pdf", "a.pdf", "h1"⟩, ⟨"documents/b.pdf", "b.pdf", "h2"⟩]
      [("documents/b.pdf", "h2")] [[("filename", PyVal.str "b.pdf")]]
      (by decide) (by decide)).1,
    (change_detection_exact (fun f => [("filename", PyVal.str f.name)]) false
      [⟨"documents/a.pdf", "a.pdf", "h1"⟩, ⟨"documents/b.pdf", "b.pdf", "h2"⟩]
      [("documents/b.pdf", "h2")] [[("filename", PyVal.str "b.pdf")]]
      (by decide) (by decide)).2.1,
    (change_detection_exact (fun f => [("filename", PyVal.str f.name)]) false
      [⟨"documents/a.pdf", "a.pdf", "h1"⟩, ⟨"documents/b.pdf", "b.pdf", "h2"⟩]
      [("documents/b.pdf", "h2")] [[("filename", PyVal.str "b.pdf")]]
      (by decide) (by decide)).2.2⟩

/-- C4: counterexample.  FixedOllamaDocumentProcessor.scan_and_process has
no deleted-file reconciliation: after a run over a directory holding only
a.pdf, the dead registry path documents/gone.pdf keeps its entry and the
record gone.pdf survives in the saved corpus. -/
theorem deleted_reconciliation_counterexample :
    pathExists [⟨"documents/a.pdf", "a.pdf", "h1"⟩] "documents/gone.pdf" = false ∧
    (FixedProc.scan_and_process (fun f => [("filename", PyVal.str f.name)])
        true true [⟨"documents/a.pdf", "a.pdf", "h1"⟩] false
        [("documents/gone.pdf", "hg")] [[("filename", PyVal.str "gone.pdf")]]
        [[("filename", PyVal.str "gone.pdf")]]).wrote = true ∧
    regGet (FixedProc.scan_and_process (fun f => [("filename", PyVal.str f.name)])
        true true [⟨"documents/a.pdf", "a.pdf", "h1"⟩] false
        [("documents/gone.pdf", "hg")] [[("filename", PyVal.str "gone.pdf")]]
        [[("filename", PyVal.str "gone.pdf")]]).registry "documents/gone.pdf" =
      some "hg" ∧
    (FixedProc.scan_and_process (fun f => [("filename", PyVal.str f.name)])
        true true [⟨"documents/a.pdf", "a.pdf", "h1"⟩] false
        [("documents/gone.pdf", "hg")] [[("filename", PyVal.str "gone.pdf")]]
        [[("filename", PyVal.str "gone.pdf")]]).dataDocs.any
      (fun d => pyBeq (docFilename d) (.str "gone.pdf")) = true := by decide

/-- C4 (amended): only the base OllamaDocumentProcessor reconciles
deletions.  For it, on a loaded corpus whose records carry string filenames
(a record without the key makes the reconciliation's doc["filename"] raise
KeyError and abort the run unsaved, as the fallible embedding here shows by
agreeing with the total one exactly under that hypothesis), after any run a
registry path whose file no longer exists is dropped from the saved
registry, and no record bearing its basename survives in the saved corpus
(granted the processed records carry their file's name and no live file
shares the dead basename). -/
theorem deleted_reconciliation_amended (procDoc : SrcFile → PyDict)
    (files : List SrcFile) (reg0 : List (String × String))
    (docs0 distDocs0 : List PyDict) (p : String)
    (hdead : pathExists files p = false)
    (hin : (regGet reg0 p).isSome = true)
    (hproc : files.all (fun f =>
      pyGet (procDoc f) "filename" == some (PyVal.str f.name)) = true)
    (hfresh : files.all (fun f => f.name != pyBasename p) = true)
    (hdocs0f : docs0.all (fun d => match pyGet d "filename" with
      | some (PyVal.str _) => true
      | _ => false) = true) :
    BaseProc.scan_and_processE procDoc true true files reg0 docs0 distDocs0 =
      .ok (BaseProc.scan_and_process procDoc true true files reg0 docs0
        distDocs0) ∧
    regGet (BaseProc.scan_and_process procDoc true true files reg0 docs0
      distDocs0).registry p = none ∧
    (BaseProc.scan_and_process procDoc true true files reg0 docs0
      distDocs0).dataDocs.all
      (fun d => !(pyBeq (docFilename d) (.str (pyBasename p)))) = true := by
  have hkeys : docs0.all (fun d => (pyGet d "filename").isSome) = true := by
    rw [List.all_eq_true] at hdocs0f ⊢
    intro d hd
    have h2 := hdocs0f d hd
    cases hg : pyGet d "filename" with
    | none => rw [hg] at h2; cases h2
    | some v => rfl
  refine ⟨scan_and_processE_ok procDoc true true files reg0 docs0 distDocs0 hkeys,
    ?_⟩
  have hsome := scanFold_regGet_isSome procDoc false files ⟨reg0, docs0, [], false⟩ p hin
  have hkey := regGet_isSome_mem_keys _ p hsome
  have hpmem : p ∈ ((files.foldl (scanStep procDoc false)
      ⟨reg0, docs0, [], false⟩).processed_files.map (·.1)).filter
      (fun q => !pathExists files q) :=
    List.mem_filter.mpr ⟨hkey, by simp [hdead]⟩
  have hftr : (((files.foldl (scanStep procDoc false)
      ⟨reg0, docs0, [], false⟩).processed_files.map (·.1)).filter
      (fun q => !pathExists files q)).isEmpty = false := by
    cases hcase : ((files.foldl (scanStep procDoc false)
        ⟨reg0, docs0, [], false⟩).processed_files.map (·.1)).filter
        (fun q => !pathExists files q) with
    | nil => rw [hcase] at hpmem; cases hpmem
    | cons a l => rfl
  unfold BaseProc.scan_and_process
  simp only [Bool.not_true, Bool.false_eq_true, if_false]
  rw [if_pos (by rw [hftr]; simp)]
  dsimp only
  constructor
  · exact regGet_filter_dead files p hdead _
  · rw [List.all_eq_true]
    intro d hd
    rw [(List.perm_insertionSort docLe _).mem_iff] at hd
    rcases List.mem_append.mp hd with hd | hd
    · have hpred := removeFold_pred _ _ d p hpmem hd
      simp [hpred]
    · rcases scanFold_newDocs_mem procDoc false files _ d hd with h0 | ⟨f, hf, rfl⟩
      · cases h0
      · have hpg : pyGet (procDoc f) "filename" = some (PyVal.str f.name) := by
          have h := List.all_eq_true.mp hproc f hf
          simpa using h
        have hfn : docFilename (procDoc f) = PyVal.str f.name := by
          unfold docFilename pyGetD
          rw [hpg]
          rfl
        rw [hfn]
        have hne : f.name ≠ pyBasename p := by
          have := List.all_eq_true.mp hfresh f hf
          simpa using this
        simp [pyBeq, hne]

/-- The KeyError raise path of the reconciliation is live: with a dead
registry path and a loaded record lacking a filename key, the base
processor's run aborts before saving anything, so the dead entry survives -
which is why the amended theorem assumes string filenames. -/
theorem scan_and_processE_keyerror_example :
    BaseProc.scan_and_processE (fun f => [("filename", PyVal.str f.name)])
      true true [] [("documents/gone.pdf", "hg")] [[]] [[]] =
      .error "KeyError: filename" := by
  rfl

theorem deleted_reconciliation_amended_witness :
    pathExists [⟨"documents/a.pdf", "a.pdf", "h1"⟩] "documents/gone.pdf" = false ∧
    (regGet [("documents/gone.pdf", "hg")] "documents/gone.pdf").isSome = true ∧
    ([⟨"documents/a.pdf", "a.pdf", "h1"⟩] : List SrcFile).all (fun f =>
      pyGet ((fun f => [("filename", PyVal.str f.name)]) f) "filename" ==
        some (PyVal.str f.name)) = true ∧
    ([⟨"documents/a.pdf", "a.pdf", "h1"⟩] : List SrcFile).all (fun f =>
      f.name != pyBasename "documents/gone.pdf") = true ∧
    ([[("filename", PyVal.str "gone.pdf")]] : List PyDict).all (fun d =>
      match pyGet d "filename" with
      | some (PyVal.str _) => true
      | _ => false) = true ∧
    BaseProc.scan_and_processE (fun f => [("filename", PyVal.str f.name)])
      true true [⟨"documents/a.pdf", "a.pdf", "h1"⟩]
      [("documents/gone.pdf", "hg")] [[("filename", PyVal.str "gone.pdf")]]
      [[("filename", PyVal.str "gone.pdf")]] =
      .ok (BaseProc.scan_and_process (fun f => [("filename", PyVal.str f.name)])
        true true [⟨"documents/a.pdf", "a.pdf", "h1"⟩]
        [("documents/gone.pdf", "hg")] [[("filename", PyVal.str "gone.pdf")]]
        [[("filename", PyVal.str "gone.pdf")]]) ∧
    regGet (BaseProc.scan_and_process (fun f => [("filename", PyVal.str f.name)])
      true true [⟨"documents/a.pdf", "a.pdf", "h1"⟩]
      [("documents/gone.pdf", "hg")] [[("filename", PyVal.str "gone.pdf")]]
      [[("filename", PyVal.str "gone.pdf")]]).registry "documents/gone.pdf" =
        none ∧
    (BaseProc.scan_and_process (fun f => [("filename", PyVal.str f.name)])
      true true [⟨"documents/a.pdf", "a.pdf", "h1"⟩]
      [("documents/gone.pdf", "hg")] [[("filename", PyVal.str "gone.pdf")]]
      [[("filename", PyVal.str "gone.pdf")]]).dataDocs.all
      (fun d => !(pyBeq (docFilename d)
        (.str (pyBasename "documents/gone.pdf")))) = true :=
  ⟨by decide, by decide, by decide, by decide, by decide,
    (deleted_reconciliation_amended (fun f => [("filename", PyVal.str f.name)])
      [⟨"documents/a.pdf", "a.pdf", "h1"⟩] [("documents/gone.pdf", "hg")]
      [[("filename", PyVal.str "gone.pdf")]] [[("filename", PyVal.str "gone.pdf")]]
      "documents/gone.pdf" (by decide) (by decide) (by decide) (by decide)
      (by decide)).1,
    (deleted_reconciliation_amended (fun f => [("filename", PyVal.str f.name)])
      [⟨"documents/a.pdf", "a.pdf", "h1"⟩] [("documents/gone.pdf", "hg")]
      [[("filename", PyVal.str "gone.pdf")]] [[("filename", PyVal.str "gone.pdf")]]
      "documents/gone.pdf" (by decide) (by decide) (by decide) (by decide)
      (by decide)).2.1,
    (deleted_reconciliation_amended (fun f => [("filename", PyVal.str f.name)])
      [⟨"documents/a.pdf", "a.pdf", "h1"⟩] [("documents/gone.pdf", "hg")]
      [[("filename", PyVal.str "gone.pdf")]] [[("filename", PyVal.str "gone.pdf")]]
      "documents/gone.pdf" (by decide) (by decide) (by decide) (by decide)
      (by decide)).2.2⟩

/-- C5: corpus invariant.  Whenever scan_and_process saves (wrote = true),
both persisted corpus copies are identical, the saved records carry
pairwise-distinct filenames (one record per filename), and the corpus is
sorted ascending by filename.  Hypotheses: the discovered files have
pairwise-distinct paths and names, processing stamps each record with its
file's name, and the loaded corpus already had distinct string
filenames. -/
theorem corpus_invariant (procDoc : SrcFile → PyDict) (force : Bool)
    (files : List SrcFile) (reg0 : List (String × String))
    (docs0 distDocs0 : List PyDict)
    (hdis : files.Pairwise (fun a b => a.path ≠ b.path))
    (hnames : files.Pairwise (fun a b => a.name ≠ b.name))
    (hproc : files.all (fun f =>
      pyGet (procDoc f) "filename" == some (PyVal.str f.name)) = true)
    (hdocs0 : (docs0.map docFilenameStr).Nodup)
    (hdocs0str : docs0.all (fun d => match pyGet d "filename" with
      | some (PyVal.str _) => true
      | _ => false) = true) :
    (FixedProc.scan_and_process procDoc true true files force reg0 docs0
      distDocs0).wrote = true →
    (FixedProc.scan_and_process procDoc true true files force reg0 docs0
        distDocs0).dataDocs =
      (FixedProc.scan_and_process procDoc true true files force reg0 docs0
        distDocs0).distDocs ∧
    ((FixedProc.scan_and_process procDoc true true files force reg0 docs0
      distDocs0).dataDocs.map docFilenameStr).Nodup ∧
    List.Sorted docLe (FixedProc.scan_and_process procDoc true true files force
      reg0 docs0 distDocs0).dataDocs := by
  intro hw
  have hid : ∀ dInit : List PyDict, (dInit.map docFilenameStr).Nodup →
      dInit.all (fun d => match pyGet d "filename" with
        | some (PyVal.str _) => true
        | _ => false) = true →
      (((files.foldl (scanStep procDoc force)
          ⟨reg0, dInit, [], false⟩).existing_documents ++
        (files.foldl (scanStep procDoc force)
          ⟨reg0, dInit, [], false⟩).new_documents).map docFilenameStr).Nodup := by
    intro dInit hnd hstr
    rw [scanFold_existing procDoc force files ⟨reg0, dInit, [], false⟩ hdis,
        scanFold_newDocs procDoc force files ⟨reg0, dInit, [], false⟩ hdis]
    dsimp only
    simp only [List.nil_append, List.map_append]
    rw [List.nodup_append]
    have hmapeq : ∀ l : List SrcFile, (∀ f ∈ l, f ∈ files) →
        (l.map procDoc).map docFilenameStr = l.map (fun f => f.name) := by
      intro l hl
      rw [List.map_map]
      refine List.map_congr_left ?_
      intro f hf
      have hpg : pyGet (procDoc f) "filename" = some (PyVal.str f.name) := by
        have h := List.all_eq_true.mp hproc f (hl f hf)
        simpa using h
      show docFilenameStr (procDoc f) = f.name
      unfold docFilenameStr
      rw [hpg]
    refine ⟨?_, ?_, ?_⟩
    · exact hnd.sublist ((List.filter_sublist _).map _)
    · rw [hmapeq _ (fun f hf => List.mem_of_mem_filter hf)]
      have hpw : (files.filter (needsProcessing force reg0)).Pairwise
          (fun a b => a.name ≠ b.name) := hnames.sublist (List.filter_sublist _)
      exact List.Pairwise.map _ (fun a b h => h) hpw
    · rw [hmapeq _ (fun f hf => List.mem_of_mem_filter hf)]
      intro x hx1 hx2
      rcases List.mem_map.mp hx1 with ⟨d, hd, rfl⟩
      rcases List.mem_map.mp hx2 with ⟨f, hf, heq⟩
      have hdp := List.of_mem_filter hd
      have hstr_d := List.all_eq_true.mp hstr d (List.mem_of_mem_filter hd)
      have hs : ∃ s, pyGet d "filename" = some (PyVal.str s) := by
        cases hg : pyGet d "filename" with
        | none => rw [hg] at hstr_d; cases hstr_d
        | some v =>
            cases v with
            | str s => exact ⟨s, rfl⟩
            | num q => rw [hg] at hstr_d; cases hstr_d
            | pybool b => rw [hg] at hstr_d; cases hstr_d
            | null => rw [hg] at hstr_d; cases hstr_d
            | list l => rw [hg] at hstr_d; cases hstr_d
            | dict dd => rw [hg] at hstr_d; cases hstr_d
      rcases hs with ⟨s, hpg⟩
      have hfn : docFilename d = PyVal.str s := by
        unfold docFilename pyGetD
        rw [hpg]
        rfl
      have hds : docFilenameStr d = s := by
        unfold docFilenameStr
        rw [hpg]
      have hany := List.any_eq_false.mp (by simpa using hdp) f hf
      rw [hfn] at hany
      have hne : s ≠ f.name := by simpa [pyBeq] using hany
      rw [hds] at heq
      exact hne heq.symm
  unfold FixedProc.scan_and_process at hw ⊢
  simp only [Bool.not_true, Bool.false_eq_true, if_false] at hw ⊢
  by_cases hu : ((files.foldl (scanStep procDoc force)
      ⟨reg0, if force = true then [] else docs0, [], false⟩).updated || force) = true
  · rw [if_pos hu]
    dsimp only
    refine ⟨rfl, ?_, ?_⟩
    · have hperm := List.perm_insertionSort docLe
        ((files.foldl (scanStep procDoc force)
          ⟨reg0, if force = true then [] else docs0, [], false⟩).existing_documents ++
         (files.foldl (scanStep procDoc force)
          ⟨reg0, if force = true then [] else docs0, [], false⟩).new_documents)
      refine ((hperm.map docFilenameStr).nodup_iff).mpr ?_
      by_cases hforce : force = true
      · subst hforce
        simp only [if_true]
        exact hid [] (by simp) (by simp)
      · simp only [Bool.not_eq_true] at hforce
        subst hforce
        simp only [Bool.false_eq_true, if_false]
        exact hid docs0 hdocs0 hdocs0str
    · exact List.sorted_insertionSort docLe _
  · rw [if_neg hu] at hw
    cases hw

theorem corpus_invariant_witness :
    ([⟨"documents/b.pdf", "b.pdf", "h2"⟩, ⟨"documents/a.pdf", "a.pdf", "h1"⟩] :
        List SrcFile).Pairwise (fun a b => a.path ≠ b.path) ∧
    ([⟨"documents/b.pdf", "b.pdf", "h2"⟩, ⟨"documents/a.pdf", "a.pdf", "h1"⟩] :
        List SrcFile).Pairwise (fun a b => a.name ≠ b.name) ∧
    ([⟨"documents/b.pdf", "b.pdf", "h2"⟩, ⟨"documents/a.pdf", "a.pdf", "h1"⟩] :
        List SrcFile).all (fun f =>
      pyGet ((fun f => [("filename", PyVal.str f.name)]) f) "filename" ==
        some (PyVal.str f.name)) = true ∧
    (([] : List PyDict).map docFilenameStr).Nodup ∧
    ([] : List PyDict).all (fun d => match pyGet d "filename" with
      | some (PyVal.str _) => true
      | _ => false) = true ∧
    (FixedProc.scan_and_process (fun f => [("filename", PyVal.str f.name)])
      true true
      [⟨"documents/b.pdf", "b.pdf", "h2"⟩, ⟨"documents/a.pdf", "a.pdf", "h1"⟩]
      false [] [] []).wrote = true ∧
    ((FixedProc.scan_and_process (fun f => [("filename", PyVal.str f.name)])
      true true
      [⟨"documents/b.pdf", "b.pdf", "h2"⟩, ⟨"documents/a.pdf", "a.pdf", "h1"⟩]
      false [] [] []).dataDocs =
      (FixedProc.scan_and_process (fun f => [("filename", PyVal.str f.name)])
        true true
        [⟨"documents/b.pdf", "b.pdf", "h2"⟩, ⟨"documents/a.pdf", "a.pdf", "h1"⟩]
        false [] [] []).distDocs ∧
    ((FixedProc.scan_and_process (fun f => [("filename", PyVal.str f.name)])
      true true
      [⟨"documents/b.pdf", "b.pdf", "h2"⟩, ⟨"documents/a.pdf", "a.pdf", "h1"⟩]
      false [] [] []).dataDocs.map docFilenameStr).Nodup ∧
    List.Sorted docLe (FixedProc.scan_and_process
      (fun f => [("filename", PyVal.str f.name)]) true true
      [⟨"documents/b.pdf", "b.pdf", "h2"⟩, ⟨"documents/a.pdf", "a.pdf", "h1"⟩]
      false [] [] []).dataDocs) :=
  ⟨by decide, by decide, by decide, by decide, by decide, by decide,
    corpus_invariant (fun f => [("filename", PyVal.str f.name)]) false
      [⟨"documents/b.pdf", "b.pdf", "h2"⟩, ⟨"documents/a.pdf", "a.pdf", "h1"⟩]
      [] [] [] (by decide) (by decide) (by decide) (by decide) (by decide)
      (by decide)⟩
